import Mathlib

/-!
# Chunk sections, light masks and the save/wire conversions of `level/chunk.go`

A shallow embedding of `level/chunk.go`.

* Go's fixed-width integers are `Int`/`Nat` values with explicit truncation
  (`toInt8`, `toInt16`, `toInt32`, `not64`).
* A nullable pointer or slice is an `Option`; dereferencing `nil` is a failure.
* The palette container, the bit storage, the registries and the tagged-binary
  codec live in files that are not part of this development; they enter as the
  fields of `Env`, and every property assumed of them is a visible hypothesis.
* For the persisted round trip the bit storage and the containers are modelled
  from the spec (`SpecBitStorage`, `SpecContainer`, `specEnv`), so that what their
  constructors accept and return is computed and not assumed.
-/

namespace level

/-! ## Machine integers -/

/-- Conversion to `int8`: two's-complement truncation to 8 bits. -/
def toInt8 (x : Int) : Int := (x + 128) % 256 - 128

/-- Conversion to `int16`: two's-complement truncation to 16 bits. -/
def toInt16 (x : Int) : Int := (x + 32768) % 65536 - 32768

/-- Conversion to `int32`: two's-complement truncation to 32 bits. -/
def toInt32 (x : Int) : Int := (x + 2147483648) % 4294967296 - 2147483648

/-- Conversion to `uint8`: the low 8 bits. -/
def toUint8 (x : Int) : Int := x % 256

/-- The values an `int8` variable can hold. -/
def isInt8 (x : Int) : Prop := -128 ≤ x ∧ x ≤ 127

/-- The values an `int16` variable can hold. -/
def isInt16 (x : Int) : Prop := -32768 ≤ x ∧ x ≤ 32767

/-- The values an `int32` variable can hold. -/
def isInt32 (x : Int) : Prop := -2147483648 ≤ x ∧ x ≤ 2147483647

instance (x : Int) : Decidable (isInt8 x) := by unfold isInt8; infer_instance
instance (x : Int) : Decidable (isInt16 x) := by unfold isInt16; infer_instance
instance (x : Int) : Decidable (isInt32 x) := by unfold isInt32; infer_instance

/-- Helper of `bits.Len`: shift right until the value is zero, `fuel` times at most. -/
def bits.lenAux : Nat → Nat → Nat
  | 0, _ => 0
  | fuel + 1, x => if x = 0 then 0 else bits.lenAux fuel (x / 2) + 1

/-- The function `math/bits.Len` on a 64-bit `uint`: the minimum number of bits
required to represent `x`, and 0 for `x = 0`. -/
def bits.Len (x : Nat) : Nat := bits.lenAux 64 (x % 2 ^ 64)

/-- The width `bits.Len(uint(secs) * 16)` that `EmptyChunk` and `ChunkFromSave`
pass to `NewBitStorage` for the heightmaps; the product is a 64-bit `uint`. -/
def bitsForHeight (secs : Nat) : Nat := bits.Len (secs * 16 % 2 ^ 64)

/-! ## Block entities -/

/-- The record `BlockEntity`; `Raw` is the type of the tagged-binary payload. -/
structure BlockEntity (Raw : Type) where
  /-- An `int8`: the packed nibble pair. -/
  XZ : Int
  /-- An `int16`. -/
  Y : Int
  /-- The field `Type`, a `block.EntityType`. -/
  EntityType : Int
  Data : Raw

/-- The method `BlockEntity.UnpackXZ`:
`int((uint8(b.XZ) >> 4) & 0xF), int(uint8(b.XZ) & 0xF)`. -/
def BlockEntity.UnpackXZ {Raw : Type} (b : BlockEntity Raw) : Int × Int :=
  (Int.land (toUint8 b.XZ >>> (4 : Int)) 0xF, Int.land (toUint8 b.XZ) 0xF)

/-- The method `BlockEntity.PackXZ`: the receiver after the call and the returned flag. -/
def BlockEntity.PackXZ {Raw : Type} (b : BlockEntity Raw) (X Z : Int) :
    BlockEntity Raw × Bool :=
  if X > 0xF ∨ Z > 0xF ∨ X < 0 ∨ Z < 0 then (b, false)
  else ({ b with XZ := toInt8 (Int.lor (X <<< (4 : Int)) Z) }, true)

/-! ## Bit sets and light data -/

/-- The type `pk.BitSet`: a slice of 64-bit words, each held as its bit pattern. -/
abbrev BitSet := List Nat

/-- Every word of the bit set fits in 64 bits. -/
def BitSet.WF (m : BitSet) : Prop := ∀ w ∈ m, w < 2 ^ 64

/-- Go's unary `^` on a 64-bit word: exclusive or with the all-ones word. -/
def not64 (w : Nat) : Nat := (w ^^^ (2 ^ 64 - 1)) % 2 ^ 64

/-- Modelled from the spec: the bit test of `pk.BitSet` (the type and its methods
are in `net/packet`, which is not among the sources); bit `p` is bit `p % 64` of
word `p / 64`. -/
def BitSet.Get (m : BitSet) (p : Nat) : Bool := (m.getD (p / 64) 0).testBit (p % 64)

/-- Modelled from the spec: `pk.BitSet.Set(index, value)`, which sets or clears bit
`index % 64` of word `index / 64`; an index past the last word is a run-time
failure (`none`). -/
def BitSet.Set (m : BitSet) (index : Nat) (value : Bool) : Option BitSet :=
  if index / 64 < m.length then
    let w := m.getD (index / 64) 0
    some (m.set (index / 64)
      (if value then w ||| (1 <<< (index % 64)) else w &&& not64 (1 <<< (index % 64))))
  else none

/-- The function `bitSetRev`: a fresh bit set of the same length, word `i` being `^set[i]`. -/
def bitSetRev (set : BitSet) : BitSet := set.map not64

/-- The record `lightData`. A light array is `[]byte`. -/
structure lightData where
  SkyLightMask : BitSet
  BlockLightMask : BitSet
  SkyLight : List (List Nat)
  BlockLight : List (List Nat)
deriving DecidableEq, Repr

/-- One field handed to `pk.Tuple` by `lightData.WriteTo`. -/
inductive LightField where
  | boolean (b : Bool)
  | bitSet (m : BitSet)
  | byteArrays (a : List (List Nat))
deriving DecidableEq, Repr

/-- The tuple that `lightData.WriteTo` writes, field by field in wire order. -/
def lightData.WriteTo (l : lightData) : List LightField :=
  [ .boolean true,
    .bitSet l.SkyLightMask,
    .bitSet l.BlockLightMask,
    .bitSet (bitSetRev l.SkyLightMask),
    .bitSet (bitSetRev l.BlockLightMask),
    .byteArrays l.SkyLight,
    .byteArrays l.BlockLight ]

/-! ## External collaborators -/

/-- The type `BlocksState`: the canonical integer id of a block state, an index
into the block registry. -/
abbrev BlocksState := Nat

/-- The type `BiomesState`: the canonical integer id of a biome, an index into the
biome registry. -/
abbrev BiomesState := Nat

/-- The operations of `PaletteContainer[T]` that `chunk.go` calls, on a non-nil
container `C` of values `T`. The container itself lives in another file. -/
structure PaletteOps (C T : Type) where
  /-- The method `Get(i)`. -/
  Get : C → Nat → T
  /-- The method `Set(i, v)`: the container after the call. -/
  Set : C → Nat → T → C
  /-- The call `palette.export()`. -/
  exportPalette : C → List T
  /-- The call `data.Raw()`, read as the list of its words. -/
  Raw : C → List Nat
  /-- The constructors `NewStatesPaletteContainer(length, defaultValue)` and
  `NewBiomesPaletteContainer(length, defaultValue)`. -/
  New : Nat → T → C
  /-- The constructors `NewStatesPaletteContainerWithData(length, data, palette)` and
  `NewBiomesPaletteContainerWithData(length, data, palette)`; `none` when the data
  is rejected. -/
  NewWithData : Nat → Option (List Nat) → List T → Option C
  /-- The method `WriteTo` on a byte buffer: the bytes written, `none` on error. -/
  WriteTo : C → Option (List Nat)
  /-- The method `ReadFrom` on a byte reader: the container after the call and the
  unread bytes, `none` on error. -/
  ReadFrom : C → List Nat → Option (C × List Nat)

/-- The fields of the temporary struct that `ChunkFromSave` unmarshals a block
entity into; `X`, `Y`, `Z` are `int32`. -/
structure BlockEntityTag where
  ID : String
  X : Int
  Y : Int
  Z : Int
deriving DecidableEq, Repr

/-- Everything `chunk.go` takes from other packages: the containers, the bit
storage, the block and biome registries, and the codecs. -/
structure Env where
  /-- The type `PaletteContainer[BlocksState]`. -/
  States : Type
  /-- The type `PaletteContainer[BiomesState]`. -/
  Biomes : Type
  /-- The type `BitStorage`. -/
  BitStorage : Type
  /-- The interface `block.Block`. -/
  Block : Type
  /-- The type `nbt.RawMessage`. -/
  RawMessage : Type
  states : PaletteOps States BlocksState
  biomes : PaletteOps Biomes BiomesState
  /-- The predicate `block.IsAir`. -/
  IsAir : BlocksState → Bool
  /-- The constructor `NewBitStorage(bits, length, data)`; `none` when the data is rejected. -/
  NewBitStorage : Nat → Nat → Option (List Nat) → Option BitStorage
  /-- The method `Raw()` of a `*BitStorage` receiver, which may be nil. -/
  RawBits : Option BitStorage → Option (List Nat)
  /-- The map `block.FromID`. -/
  FromID : String → Option Block
  /-- The test `Properties.Data != nil`. -/
  hasData : RawMessage → Bool
  /-- The call `Properties.Unmarshal(&b)`: the block after the call, `none` on error. -/
  UnmarshalBlock : RawMessage → Block → Option Block
  /-- The map `block.ToStateID`. -/
  ToStateID : Block → Option BlocksState
  /-- The table `block.StateList`; `none` past its end. -/
  StateList : BlocksState → Option Block
  /-- The method `ID()` of a block. -/
  BlockID : Block → String
  /-- The call `nbt.NewEncoder(&buffer).Encode(b, "")`: the buffer, `none` on error. -/
  EncodeBlock : Block → Option (List Nat)
  /-- The call `nbt.NewDecoder(&buffer).Decode(&palette[i].Properties)`. -/
  DecodeProperties : List Nat → Option RawMessage
  /-- The map `biome.BiomesIDs`. -/
  BiomesIDs : String → Option BiomesState
  /-- The table `biome.BiomesNames`; `none` past its end. -/
  BiomesNames : BiomesState → Option String
  /-- The call `v.Unmarshal(&tmp)` on a block entity of the save. -/
  UnmarshalBlockEntity : RawMessage → Option BlockEntityTag
  /-- The map `block.EntityTypes`. -/
  EntityTypes : String → Int
  /-- The bytes `pk.Short(v).WriteTo` writes. -/
  WriteShort : Int → List Nat
  /-- The method `(*pk.Short).ReadFrom`: the value read and the unread bytes. -/
  ReadShort : List Nat → Option (Int × List Nat)

/-- The function `strings.TrimPrefix`. -/
def strings.TrimPrefix (s pre : String) : String :=
  if pre.data.isPrefixOf s.data then String.mk (s.data.drop pre.data.length) else s

/-- The ways an import or export stops without a result. The first nine are the
errors that `chunk.go` returns (seven by the import, two by the export); the last
three are run-time failures of Go: backing data rejected by a constructor, a nil
pointer, an index past the end of a slice or table. -/
inductive Error where
  | sectionOutOfBounds (y : Int)
  | unknownBlockId (name : String)
  | unmarshalProperties
  | unknownBlock
  | unknownBiomes (name : String)
  | blockEntityUnmarshal
  | packOutOfBound (x z : Int)
  | encodeBlock
  | decodeProperties
  | rejected
  | nilPointer
  | indexOutOfRange
deriving DecidableEq, Repr

/-! ## Sections and chunks -/

/-- The record `Section`. `BlockCount` is an `int16`; the containers are pointers
and the light arrays slices, all of which may be nil. -/
structure Section (E : Env) where
  BlockCount : Int
  States : Option E.States
  Biomes : Option E.Biomes
  SkyLight : Option (List Nat)
  BlockLight : Option (List Nat)

/-- The record `HeightMaps`. -/
structure HeightMaps (E : Env) where
  MotionBlocking : Option E.BitStorage
  MotionBlockingNoLeaves : Option E.BitStorage
  OceanFloor : Option E.BitStorage
  WorldSurface : Option E.BitStorage

/-- The record `Chunk`. -/
structure Chunk (E : Env) where
  Sections : List (Section E)
  HeightMaps : HeightMaps E
  BlockEntity : List (BlockEntity E.RawMessage)
  Status : String

/-- The zero value of `Section`, as `make([]Section, secs)` fills its slice. -/
def Section.zero (E : Env) : Section E := ⟨0, none, none, none, none⟩

/-- The section literal of `EmptyChunk`. -/
def Section.empty (E : Env) : Section E :=
  { BlockCount := 0
    States := some (E.states.New (16 * 16 * 16) 0)
    Biomes := some (E.biomes.New (4 * 4 * 4) 0)
    SkyLight := none
    BlockLight := none }

/-- The constant `StatusEmpty`, declared with `ChunkStatus` in another file; no
statement below depends on its value. -/
def StatusEmpty : String := "empty"

/-- The function `EmptyChunk`; `none` when the bit storage is refused. -/
def EmptyChunk (E : Env) (secs : Nat) : Option (Chunk E) :=
  match E.NewBitStorage (bitsForHeight secs) (16 * 16) none with
  | none => none
  | some mb =>
    some { Sections := List.replicate secs (Section.empty E)
           HeightMaps := ⟨some mb, none, none, none⟩
           BlockEntity := []
           Status := StatusEmpty }

/-- The method `Section.GetBlock`; `none` when `States` is nil. -/
def Section.GetBlock {E : Env} (s : Section E) (i : Nat) : Option BlocksState :=
  match s.States with
  | none => none
  | some st => some (E.states.Get st i)

/-- The method `Section.SetBlock`: the section after the call; `none` when `States`
is nil. The counter is an `int16`. -/
def Section.SetBlock {E : Env} (s : Section E) (i : Nat) (v : BlocksState) :
    Option (Section E) :=
  match s.States with
  | none => none
  | some st =>
    let c1 := if !E.IsAir (E.states.Get st i) then toInt16 (s.BlockCount - 1) else s.BlockCount
    let c2 := if !E.IsAir v then toInt16 (c1 + 1) else c1
    some { s with BlockCount := c2, States := some (E.states.Set st i v) }

/-- A finite sequence of `SetBlock` calls, in order. -/
def Section.SetBlocks {E : Env} (s : Section E) : List (Nat × BlocksState) → Option (Section E)
  | [] => some s
  | (i, v) :: rest =>
    match s.SetBlock i v with
    | none => none
    | some s1 => Section.SetBlocks s1 rest

/-- The number of slots `j < n` of a block-state container that are not air. -/
def nonAirCount (E : Env) (st : E.States) (n : Nat) : Nat :=
  ((List.range n).filter (fun j => !E.IsAir (E.states.Get st j))).length

/-- The loop of `countNoneAirBlocks` over the slots in `slots`, the `int16` counter
starting at `blockCount`. -/
def countNoneAirBlocks.loop {E : Env} (sec : Section E) :
    List Nat → Int → Option Int
  | [], blockCount => some blockCount
  | i :: rest, blockCount =>
    match sec.GetBlock i with
    | none => none
    | some b =>
      countNoneAirBlocks.loop sec rest
        (if !E.IsAir b then toInt16 (blockCount + 1) else blockCount)

/-- The function `countNoneAirBlocks`; `none` when `States` is nil. -/
@[irreducible]
def countNoneAirBlocks {E : Env} (sec : Section E) : Option Int :=
  countNoneAirBlocks.loop sec (List.range (16 * 16 * 16)) 0

/-! ## The persisted form (`save`) -/

/-- The record `save.BlockState`: a name and its structured properties. -/
structure save.BlockState (E : Env) where
  Name : String
  Properties : E.RawMessage

/-- The struct `BlockStates` of a persisted section. -/
structure save.BlockStates (E : Env) where
  Palette : List (save.BlockState E)
  Data : Option (List Nat)

/-- The struct `Biomes` of a persisted section. -/
structure save.Biomes where
  Palette : List String
  Data : Option (List Nat)

/-- The record `save.Section`; `Y` is an `int8`. -/
structure save.Section (E : Env) where
  Y : Int
  BlockStates : save.BlockStates E
  Biomes : save.Biomes
  SkyLight : Option (List Nat)
  BlockLight : Option (List Nat)

/-- The struct `Heightmaps` of a persisted chunk. -/
structure save.Heightmaps where
  MotionBlocking : Option (List Nat)
  MotionBlockingNoLeaves : Option (List Nat)
  OceanFloor : Option (List Nat)
  WorldSurface : Option (List Nat)

/-- The fields of `save.Chunk` that `chunk.go` reads or writes; `XPos`, `YPos`,
`ZPos` are `int32`. -/
structure save.Chunk (E : Env) where
  XPos : Int
  YPos : Int
  ZPos : Int
  Sections : List (save.Section E)
  BlockEntities : List E.RawMessage
  Heightmaps : save.Heightmaps
  Status : String

/-- The types of the integer fields: `YPos`, `XPos`, `ZPos` are `int32` and every
section's `Y` is an `int8`. -/
def save.Chunk.WF {E : Env} (c : save.Chunk E) : Prop :=
  isInt32 c.XPos ∧ isInt32 c.YPos ∧ isInt32 c.ZPos ∧ ∀ v ∈ c.Sections, isInt8 v.Y

/-! ## Import: `ChunkFromSave` -/

/-- One round of the loop of `readStatesPalette`: the state id of a palette entry. -/
def readStatesPalette.entry (E : Env) (v : save.BlockState E) : Except Error BlocksState :=
  match E.FromID v.Name with
  | none => .error (.unknownBlockId v.Name)
  | some b =>
    match (if E.hasData v.Properties then E.UnmarshalBlock v.Properties b else some b) with
    | none => .error .unmarshalProperties
    | some b1 =>
      match E.ToStateID b1 with
      | none => .error .unknownBlock
      | some s => .ok s

/-- The loop of `readStatesPalette`, which stops at the first error. -/
def readStatesPalette.loop (E : Env) : List (save.BlockState E) → Except Error (List BlocksState)
  | [] => .ok []
  | v :: rest =>
    match readStatesPalette.entry E v with
    | .error e => .error e
    | .ok s =>
      match readStatesPalette.loop E rest with
      | .error e => .error e
      | .ok ss => .ok (s :: ss)

/-- The function `readStatesPalette`. -/
def readStatesPalette (E : Env) (palette : List (save.BlockState E)) (data : Option (List Nat)) :
    Except Error E.States :=
  match readStatesPalette.loop E palette with
  | .error e => .error e
  | .ok statePalette =>
    match E.states.NewWithData (16 * 16 * 16) data statePalette with
    | none => .error .rejected
    | some paletteData => .ok paletteData

/-- The loop of `readBiomesPalette`, which stops at the first unknown name. -/
def readBiomesPalette.loop (E : Env) : List String → Except Error (List BiomesState)
  | [] => .ok []
  | v :: rest =>
    match E.BiomesIDs (strings.TrimPrefix v "minecraft:") with
    | none => .error (.unknownBiomes v)
    | some s =>
      match readBiomesPalette.loop E rest with
      | .error e => .error e
      | .ok ss => .ok (s :: ss)

/-- The function `readBiomesPalette`. -/
def readBiomesPalette (E : Env) (palette : List String) (data : Option (List Nat)) :
    Except Error E.Biomes :=
  match readBiomesPalette.loop E palette with
  | .error e => .error e
  | .ok biomesRawPalette =>
    match E.biomes.NewWithData (4 * 4 * 4) data biomesRawPalette with
    | none => .error .rejected
    | some paletteData => .ok paletteData

/-- The index `i := int32(v.Y) - c.YPos` of the section loop, a 32-bit difference. -/
def ChunkFromSave.index {E : Env} (c : save.Chunk E) (v : save.Section E) : Int :=
  toInt32 (toInt32 v.Y - c.YPos)

/-- One round of the section loop of `ChunkFromSave` on the slice `sections`. -/
def ChunkFromSave.sectionStep {E : Env} (c : save.Chunk E) (secs : Nat)
    (sections : List (Section E)) (v : save.Section E) : Except Error (List (Section E)) :=
  let i := ChunkFromSave.index c v
  if i < 0 ∨ i ≥ toInt32 secs then .error (.sectionOutOfBounds v.Y)
  else
    match sections.get? i.toNat with
    | none => .error .indexOutOfRange
    | some sec =>
      match readStatesPalette E v.BlockStates.Palette v.BlockStates.Data with
      | .error e => .error e
      | .ok states =>
        let sec1 : Section E := { sec with States := some states }
        match countNoneAirBlocks sec1 with
        | none => .error .nilPointer
        | some n =>
          let sec2 : Section E := { sec1 with BlockCount := n }
          match readBiomesPalette E v.Biomes.Palette v.Biomes.Data with
          | .error e => .error e
          | .ok biomes =>
            let sec3 : Section E := { sec2 with Biomes := some biomes }
            let sec4 : Section E := { sec3 with SkyLight := v.SkyLight }
            let sec5 : Section E := { sec4 with BlockLight := v.BlockLight }
            .ok (sections.set i.toNat sec5)

/-- The section loop of `ChunkFromSave`, which stops at the first error. -/
def ChunkFromSave.sectionLoop {E : Env} (c : save.Chunk E) (secs : Nat) :
    List (Section E) → List (save.Section E) → Except Error (List (Section E))
  | sections, [] => .ok sections
  | sections, v :: rest =>
    match ChunkFromSave.sectionStep c secs sections v with
    | .error e => .error e
    | .ok sections1 => ChunkFromSave.sectionLoop c secs sections1 rest

/-- One round of the block-entity loop of `ChunkFromSave`. The coordinates are
`int(tmp.X - c.XPos<<4)` and `int(tmp.Z - c.ZPos<<4)`, computed in 32 bits. -/
def ChunkFromSave.blockEntity {E : Env} (c : save.Chunk E) (v : E.RawMessage) :
    Except Error (BlockEntity E.RawMessage) :=
  match E.UnmarshalBlockEntity v with
  | none => .error .blockEntityUnmarshal
  | some tmp =>
    let b0 : BlockEntity E.RawMessage := { XZ := 0, Y := 0, EntityType := 0, Data := v }
    let x := toInt32 (tmp.X - toInt32 (c.XPos <<< (4 : Int)))
    let z := toInt32 (tmp.Z - toInt32 (c.ZPos <<< (4 : Int)))
    match b0.PackXZ x z with
    | (_, false) => .error (.packOutOfBound x z)
    | (b1, true) =>
      .ok { b1 with Y := toInt16 tmp.Y, EntityType := E.EntityTypes tmp.ID }

/-- The block-entity loop of `ChunkFromSave`, which stops at the first error. -/
def ChunkFromSave.blockEntities {E : Env} (c : save.Chunk E) :
    List E.RawMessage → Except Error (List (BlockEntity E.RawMessage))
  | [] => .ok []
  | v :: rest =>
    match ChunkFromSave.blockEntity c v with
    | .error e => .error e
    | .ok b =>
      match ChunkFromSave.blockEntities c rest with
      | .error e => .error e
      | .ok bs => .ok (b :: bs)

/-- The four `NewBitStorage` calls in the result of `ChunkFromSave`. -/
def ChunkFromSave.heightMaps (E : Env) (bitsForHeight : Nat) (h : save.Heightmaps) :
    Except Error (HeightMaps E) :=
  match E.NewBitStorage bitsForHeight (16 * 16) h.MotionBlocking,
        E.NewBitStorage bitsForHeight (16 * 16) h.MotionBlockingNoLeaves,
        E.NewBitStorage bitsForHeight (16 * 16) h.OceanFloor,
        E.NewBitStorage bitsForHeight (16 * 16) h.WorldSurface with
  | some a, some b, some c, some d => .ok ⟨some a, some b, some c, some d⟩
  | _, _, _, _ => .error .rejected

/-- The function `ChunkFromSave`. -/
def ChunkFromSave {E : Env} (c : save.Chunk E) : Except Error (Chunk E) :=
  let secs := c.Sections.length
  match ChunkFromSave.sectionLoop c secs (List.replicate secs (Section.zero E)) c.Sections with
  | .error e => .error e
  | .ok sections =>
    match ChunkFromSave.blockEntities c c.BlockEntities with
    | .error e => .error e
    | .ok blockEntities =>
      match ChunkFromSave.heightMaps E (bitsForHeight secs) c.Heightmaps with
      | .error e => .error e
      | .ok heightMaps =>
        .ok { Sections := sections
              HeightMaps := heightMaps
              BlockEntity := blockEntities
              Status := c.Status }

/-! ## Export: `ChunkToSave` -/

/-- The slice `append(data, raw...)` for a nil `data`: nil again when `raw` is empty. -/
def appendToNil (raw : List Nat) : Option (List Nat) :=
  if raw = [] then none else some raw

/-- One round of the loop of `writeStatesPalette`: the persisted entry of a state id. -/
def writeStatesPalette.entry (E : Env) (v : BlocksState) : Except Error (save.BlockState E) :=
  match E.StateList v with
  | none => .error .indexOutOfRange
  | some b =>
    match E.EncodeBlock b with
    | none => .error .encodeBlock
    | some buffer =>
      match E.DecodeProperties buffer with
      | none => .error .decodeProperties
      | some properties => .ok { Name := E.BlockID b, Properties := properties }

/-- The loop of `writeStatesPalette`, which stops at the first error. -/
def writeStatesPalette.loop (E : Env) : List BlocksState → Except Error (List (save.BlockState E))
  | [] => .ok []
  | v :: rest =>
    match writeStatesPalette.entry E v with
    | .error e => .error e
    | .ok p =>
      match writeStatesPalette.loop E rest with
      | .error e => .error e
      | .ok ps => .ok (p :: ps)

/-- The function `writeStatesPalette`: the palette and the data. -/
def writeStatesPalette (E : Env) (paletteData : Option E.States) :
    Except Error (save.BlockStates E) :=
  match paletteData with
  | none => .error .nilPointer
  | some pd =>
    match writeStatesPalette.loop E (E.states.exportPalette pd) with
    | .error e => .error e
    | .ok palette => .ok { Palette := palette, Data := appendToNil (E.states.Raw pd) }

/-- The loop of `writeBiomesPalette`. -/
def writeBiomesPalette.loop (E : Env) : List BiomesState → Except Error (List String)
  | [] => .ok []
  | v :: rest =>
    match E.BiomesNames v with
    | none => .error .indexOutOfRange
    | some name =>
      match writeBiomesPalette.loop E rest with
      | .error e => .error e
      | .ok ps => .ok (name :: ps)

/-- The function `writeBiomesPalette`: the palette and the data. It returns no
error; the failures here are run-time failures. -/
def writeBiomesPalette (E : Env) (paletteData : Option E.Biomes) : Except Error save.Biomes :=
  match paletteData with
  | none => .error .nilPointer
  | some pd =>
    match writeBiomesPalette.loop E (E.biomes.exportPalette pd) with
    | .error e => .error e
    | .ok palette => .ok { Palette := palette, Data := appendToNil (E.biomes.Raw pd) }

/-- One round of the loop of `ChunkToSave`, for the section `v` at index `i`;
`Y` is `int8(int32(i) + dst.YPos)`. -/
def ChunkToSave.saveSection {E : Env} (ypos : Int) (i : Nat) (v : Section E) :
    Except Error (save.Section E) :=
  match writeStatesPalette E v.States with
  | .error e => .error e
  | .ok states =>
    match writeBiomesPalette E v.Biomes with
    | .error e => .error e
    | .ok biomes =>
      .ok { Y := toInt8 (toInt32 (toInt32 i + ypos))
            BlockStates := states
            Biomes := biomes
            SkyLight := v.SkyLight
            BlockLight := v.BlockLight }

/-- The loop of `ChunkToSave` over the sections from index `i` on. -/
def ChunkToSave.sections {E : Env} (ypos : Int) :
    Nat → List (Section E) → Except Error (List (save.Section E))
  | _, [] => .ok []
  | i, v :: rest =>
    match ChunkToSave.saveSection ypos i v with
    | .error e => .error e
    | .ok s =>
      match ChunkToSave.sections ypos (i + 1) rest with
      | .error e => .error e
      | .ok ss => .ok (s :: ss)

/-- The function `ChunkToSave`: `dst` after the call. -/
def ChunkToSave {E : Env} (c : Chunk E) (dst : save.Chunk E) : Except Error (save.Chunk E) :=
  match ChunkToSave.sections dst.YPos 0 c.Sections with
  | .error e => .error e
  | .ok sections =>
    .ok { dst with
          Sections := sections
          Heightmaps := { dst.Heightmaps with MotionBlocking := E.RawBits c.HeightMaps.MotionBlocking }
          Status := c.Status }

/-! ## The wire form -/

/-- The method `Section.WriteTo` on a byte buffer: the tuple of the block count,
the states and the biomes, written in this order. -/
def Section.WriteTo {E : Env} (s : Section E) : Option (List Nat) :=
  match s.States with
  | none => none
  | some st =>
    match E.states.WriteTo st with
    | none => none
    | some b1 =>
      match s.Biomes with
      | none => none
      | some bi =>
        match E.biomes.WriteTo bi with
        | none => none
        | some b2 => some (E.WriteShort s.BlockCount ++ b1 ++ b2)

/-- The method `Section.ReadFrom` on a byte reader: the section after the call and
the unread bytes. -/
def Section.ReadFrom {E : Env} (s : Section E) (r : List Nat) : Option (Section E × List Nat) :=
  match E.ReadShort r with
  | none => none
  | some (blockCount, r1) =>
    match s.States with
    | none => none
    | some st =>
      match E.states.ReadFrom st r1 with
      | none => none
      | some (st1, r2) =>
        match s.Biomes with
        | none => none
        | some bi =>
          match E.biomes.ReadFrom bi r2 with
          | none => none
          | some (bi1, r3) =>
            some ({ s with BlockCount := blockCount, States := some st1, Biomes := some bi1 }, r3)

/-- The loop of `Chunk.Data`: the sections written one after the other. -/
def Chunk.Data.loop {E : Env} : List (Section E) → Option (List Nat)
  | [] => some []
  | s :: rest =>
    match s.WriteTo with
    | none => none
    | some b =>
      match Chunk.Data.loop rest with
      | none => none
      | some bs => some (b ++ bs)

/-- The method `Chunk.Data`. -/
def Chunk.Data {E : Env} (c : Chunk E) : Option (List Nat) :=
  Chunk.Data.loop c.Sections

/-- The loop of `Chunk.PutData`: the sections read one after the other from `r`. -/
def Chunk.PutData.loop {E : Env} : List (Section E) → List Nat → Option (List (Section E))
  | [], _ => some []
  | s :: rest, r =>
    match s.ReadFrom r with
    | none => none
    | some (s1, r1) =>
      match Chunk.PutData.loop rest r1 with
      | none => none
      | some ss => some (s1 :: ss)

/-- The method `Chunk.PutData`: the chunk after a successful call. -/
def Chunk.PutData {E : Env} (c : Chunk E) (data : List Nat) : Option (Chunk E) :=
  match Chunk.PutData.loop c.Sections data with
  | none => none
  | some sections => some { c with Sections := sections }

/-- One round of the light loop of `Chunk.WriteTo`, for the section `v` at index `i`. -/
def Chunk.WriteTo.lightStep {E : Env} (light : lightData) (i : Nat) (v : Section E) :
    Option lightData :=
  match (match v.SkyLight with
         | none => some light
         | some a =>
           match light.SkyLightMask.Set i true with
           | none => none
           | some m => some { light with SkyLightMask := m, SkyLight := light.SkyLight ++ [a] }) with
  | none => none
  | some light1 =>
    match v.BlockLight with
    | none => some light1
    | some a =>
      match light1.BlockLightMask.Set i true with
      | none => none
      | some m => some { light1 with BlockLightMask := m, BlockLight := light1.BlockLight ++ [a] }

/-- The light loop of `Chunk.WriteTo` over the sections from index `i` on. -/
def Chunk.WriteTo.lightLoop {E : Env} : lightData → Nat → List (Section E) → Option lightData
  | light, _, [] => some light
  | light, i, v :: rest =>
    match Chunk.WriteTo.lightStep light i v with
    | none => none
    | some light1 => Chunk.WriteTo.lightLoop light1 (i + 1) rest

/-- The light data that `Chunk.WriteTo` builds: two masks of
`(16*16*16-1)>>6+1` zero words and two empty lists, then the loop. -/
def Chunk.WriteTo.light {E : Env} (c : Chunk E) : Option lightData :=
  Chunk.WriteTo.lightLoop
    { SkyLightMask := List.replicate ((16 * 16 * 16 - 1) >>> 6 + 1) 0
      BlockLightMask := List.replicate ((16 * 16 * 16 - 1) >>> 6 + 1) 0
      SkyLight := []
      BlockLight := [] } 0 c.Sections

/-- The tuple that `Chunk.WriteTo` hands to `pk.Tuple`. -/
structure WireChunk (E : Env) where
  MotionBlocking : Option (List Nat)
  WorldSurface : Option (List Nat)
  Data : List Nat
  BlockEntity : List (BlockEntity E.RawMessage)
  Light : List LightField

/-- The method `Chunk.WriteTo`, up to the byte encoding of the tuple. -/
def Chunk.WriteTo {E : Env} (c : Chunk E) : Option (WireChunk E) :=
  match c.Data with
  | none => none
  | some data =>
    match Chunk.WriteTo.light c with
    | none => none
    | some light =>
      some { MotionBlocking := E.RawBits c.HeightMaps.MotionBlocking
             WorldSurface := E.RawBits c.HeightMaps.MotionBlocking
             Data := data
             BlockEntity := c.BlockEntity
             Light := light.WriteTo }

/-! ## Properties assumed of the collaborators -/

/-- Get-after-set on the first `n` slots: a write is read back at its slot and
leaves the other slots as they were. -/
def PaletteOps.GetSet {C T : Type} (ops : PaletteOps C T) (n : Nat) : Prop :=
  ∀ (c : C) (i : Nat) (v : T), i < n → ∀ j : Nat, j < n →
    ops.Get (ops.Set c i v) j = if j = i then v else ops.Get c j

/-- The wire encoding of a container of `n` slots is a self-delimiting round
trip: what `WriteTo` writes for `src`, followed by any bytes `rest`, is read back
by `ReadFrom` into any target, which then holds the values of `src`, and exactly
`rest` is left unread. -/
def PaletteOps.WireRoundTrip {C T : Type} (ops : PaletteOps C T) (n : Nat) : Prop :=
  ∀ (src tgt : C) (rest : List Nat), ∃ bytes tgt1,
    ops.WriteTo src = some bytes ∧
    ops.ReadFrom tgt (bytes ++ rest) = some (tgt1, rest) ∧
    ∀ j : Nat, j < n → ops.Get tgt1 j = ops.Get src j

/-- The wire encoding of an `int16` is a self-delimiting round trip. -/
def Env.ShortRoundTrip (E : Env) : Prop :=
  ∀ (v : Int) (rest : List Nat), isInt16 v → E.ReadShort (E.WriteShort v ++ rest) = some (v, rest)

/-- The section `t` holds in every block-state slot and every biome slot the value
that `s` holds there; both have their containers. -/
def Section.SameSlots {E : Env} (s t : Section E) : Prop :=
  ∃ st st1 bi bi1, s.States = some st ∧ t.States = some st1 ∧
    s.Biomes = some bi ∧ t.Biomes = some bi1 ∧
    (∀ j : Nat, j < 4096 → E.states.Get st1 j = E.states.Get st j) ∧
    (∀ j : Nat, j < 64 → E.biomes.Get bi1 j = E.biomes.Get bi j)

/-- The number of bits set among the first `n` bits of a mask. -/
def BitSet.count (m : BitSet) (n : Nat) : Nat := ((List.range n).filter m.Get).length

/-- What the light loop of `Chunk.WriteTo` has built after the sections `pre`, for
the light field `f` (`SkyLight` or `BlockLight`): a mask of 64 words whose bit `p` is
set exactly when section `p` of `pre` carries the field, and the arrays of these
sections in order. -/
def LightInv {E : Env} (f : Section E → Option (List Nat)) (pre : List (Section E))
    (mask : BitSet) (arrays : List (List Nat)) : Prop :=
  mask.length = 64 ∧ mask.WF ∧
  (∀ p : Nat, mask.Get p = true ↔ ∃ s, pre.get? p = some s ∧ f s ≠ none) ∧
  arrays = pre.filterMap f

/-- The section that one round of the section loop of `ChunkFromSave` stores for
the persisted section `v`: the containers read from its palettes and data, the
number of non-air slots of the block-state container, and its light arrays. -/
def ChunkFromSave.Built {E : Env} (v : save.Section E) (sec : Section E) : Prop :=
  ∃ st bi, readStatesPalette E v.BlockStates.Palette v.BlockStates.Data = .ok st ∧
    readBiomesPalette E v.Biomes.Palette v.Biomes.Data = .ok bi ∧
    sec = { BlockCount := (nonAirCount E st 4096 : Int)
            States := some st
            Biomes := some bi
            SkyLight := v.SkyLight
            BlockLight := v.BlockLight }

/-- A container that holds a palette and the palette index of every slot. -/
structure RefContainer where
  palette : List Nat
  index : Nat → Nat

/-- The container operations on `RefContainer` for `n` slots; the backing data
holds one index per word, and data of another length is rejected. -/
def refOps (n : Nat) : PaletteOps RefContainer Nat where
  Get c i := c.palette.getD (c.index i) 0
  Set c i v := { palette := v :: c.palette, index := fun j => if j = i then 0 else c.index j + 1 }
  exportPalette c := c.palette
  Raw c := (List.range n).map c.index
  New _ d := { palette := [d], index := fun _ => 0 }
  NewWithData _ data pal :=
    match data with
    | none => some { palette := pal, index := fun _ => 0 }
    | some d =>
      if d.length = n then some { palette := pal, index := fun j => d.getD j 0 } else none
  WriteTo c := some ((List.range n).map (fun j => c.palette.getD (c.index j) 0))
  ReadFrom _ r :=
    if n ≤ r.length then some ({ palette := r.take n, index := fun j => j }, r.drop n) else none

/-- The reference collaborators. Block states: 0 is `minecraft:air`, 1 is
`minecraft:stone`, and 2 to 5 are `minecraft:lever` with the property 0 to 3. -/
def refEnv : Env where
  States := RefContainer
  Biomes := RefContainer
  BitStorage := List Nat
  Block := Nat
  RawMessage := List Int
  states := refOps 4096
  biomes := refOps 64
  IsAir v := v == 0
  NewBitStorage bits length data :=
    match data with
    | none => some (List.replicate (if bits = 0 then 0 else (length + 64 / bits - 1) / (64 / bits)) 0)
    | some d =>
      if bits = 0 ∨ d.length = (length + 64 / bits - 1) / (64 / bits) then some d else none
  RawBits b :=
    match b with
    | none => some []
    | some w => some w
  FromID name :=
    if name = "minecraft:air" then some 0
    else if name = "minecraft:stone" then some 1
    else if name = "minecraft:lever" then some 2
    else none
  hasData m := !m.isEmpty
  UnmarshalBlock m b :=
    match m with
    | [k] => some (b + k.toNat)
    | _ => none
  ToStateID b := if b < 6 then some b else none
  StateList v := if v < 6 then some v else none
  BlockID b :=
    if b = 0 then "minecraft:air" else if b = 1 then "minecraft:stone" else "minecraft:lever"
  EncodeBlock b := some (if b < 2 then [] else [b - 2])
  DecodeProperties buffer := some (buffer.map Int.ofNat)
  BiomesIDs name :=
    if name = "ocean" then some 0
    else if name = "plains" then some 1
    else if name = "desert" then some 2
    else none
  BiomesNames v := ["minecraft:ocean", "minecraft:plains", "minecraft:desert"].get? v
  UnmarshalBlockEntity m :=
    match m with
    | [x, y, z] => some ⟨"minecraft:chest", x, y, z⟩
    | _ => none
  EntityTypes id := if id = "minecraft:chest" then 1 else 0
  WriteShort v := [(v % 65536 / 256).toNat, (v % 256).toNat]
  ReadShort r :=
    match r with
    | a :: b :: rest => some (toInt16 ((a : Int) * 256 + (b : Int)), rest)
    | _ => none

/-- A section of the reference instance: the empty section with the light arrays given. -/
def refSection (sky block : Option (List Nat)) : Section refEnv :=
  { Section.empty refEnv with SkyLight := sky, BlockLight := block }

/-- A section of the reference instance with stone in slot 0, plains everywhere
and no light. -/
def refStone : Section refEnv :=
  { BlockCount := 1
    States := some (refEnv.states.Set (refEnv.states.New 4096 0) 0 1)
    Biomes := some (refEnv.biomes.New 64 1)
    SkyLight := none
    BlockLight := none }

/-- A chunk of the reference instance with three sections; the first and the third
carry sky light and the third carries block light. -/
def refChunk : Chunk refEnv :=
  { Sections :=
      [refSection (some (List.replicate 2048 255)) none,
       refSection none none,
       refSection (some (List.replicate 2048 15)) (some (List.replicate 2048 1))]
    HeightMaps := ⟨none, none, none, none⟩
    BlockEntity := []
    Status := StatusEmpty }

/-- A second chunk of the reference instance, with three sections. -/
def refChunk2 : Chunk refEnv :=
  { Sections := [refStone, refSection none none, refStone]
    HeightMaps := ⟨none, none, none, none⟩
    BlockEntity := []
    Status := "full" }

/-- A persisted section of the reference instance at height `y` with the given
block-state palette, the biome palette `minecraft:plains`, no packed data (every
slot holds palette entry 0) and no light. -/
def refSaveSection (y : Int) (palette : List (save.BlockState refEnv)) : save.Section refEnv :=
  { Y := y
    BlockStates := { Palette := palette, Data := none }
    Biomes := { Palette := ["minecraft:plains"], Data := none }
    SkyLight := none
    BlockLight := none }

/-- A persisted chunk of the reference instance: two sections at heights -4 and -3
over `YPos = -4`, stone below air, and one block entity. -/
def refSave : save.Chunk refEnv :=
  { XPos := 0
    YPos := -4
    ZPos := 0
    Sections :=
      [refSaveSection (-4) [⟨"minecraft:stone", []⟩, ⟨"minecraft:lever", [1]⟩],
       refSaveSection (-3) [⟨"minecraft:air", []⟩]]
    BlockEntities := [[3, 70, 5]]
    Heightmaps := ⟨none, none, none, none⟩
    Status := "full" }

/-- A persisted chunk of the reference instance whose two sections have the same
height -4 over `YPos = -4`. -/
def refSaveDup : save.Chunk refEnv :=
  { XPos := 0
    YPos := -4
    ZPos := 0
    Sections :=
      [refSaveSection (-4) [⟨"minecraft:stone", []⟩],
       refSaveSection (-4) [⟨"minecraft:air", []⟩]]
    BlockEntities := []
    Heightmaps := ⟨none, none, none, none⟩
    Status := "full" }

/-- A persisted chunk of the reference instance with `2^31 - 126` sections, all at
height -128 over `YPos = 2^31 - 1`. -/
def refSaveHuge : save.Chunk refEnv :=
  { XPos := 0
    YPos := 2147483647
    ZPos := 0
    Sections := List.replicate 2147483522 (refSaveSection (-128) [⟨"minecraft:air", []⟩])
    BlockEntities := []
    Heightmaps := ⟨none, none, none, none⟩
    Status := "full" }

/-! ## The bit storage and the containers, modelled from the spec

`bitstorage.go` and `palette.go` are not among the sources, and whether a chunk
comes back from its persisted form depends on what their constructors accept and
return. For the persisted round trip they are modelled from the spec (§3, §4.1 to
§4.3); the operations that `ChunkToSave` and `ChunkFromSave` do not call stay
parameters. -/

/-- Modelled from the spec: the number of backing words of a `BitStorage`
(`bitstorage.go` is missing), `ceil(size / floor(64 / bitsPerEntry))` for
`bitsPerEntry > 0` (§3); the zero width has no words. -/
def BitStorage.wordCount (bitsPerEntry size : Nat) : Nat :=
  if bitsPerEntry = 0 then 0 else (size + 64 / bitsPerEntry - 1) / (64 / bitsPerEntry)

/-- Modelled from the spec: the record `BitStorage` (`bitstorage.go` is missing),
with `bitsPerEntry`, `size`, the backing words, and the invariant of §3 on their
number. -/
structure SpecBitStorage where
  bitsPerEntry : Nat
  size : Nat
  words : List Nat
  inv : bitsPerEntry = 0 ∨ words.length = BitStorage.wordCount bitsPerEntry size

/-- Modelled from the spec: `get(i)` of §4.1 (`bitstorage.go` is missing):
`(words[i / valuesPerWord] >> ((i % valuesPerWord) * bitsPerEntry)) & mask`, and 0
at the zero width. A word past the end reads as 0. -/
def SpecBitStorage.get (b : SpecBitStorage) (i : Nat) : Nat :=
  if b.bitsPerEntry = 0 then 0
  else
    (b.words.getD (i / (64 / b.bitsPerEntry)) 0 >>> (i % (64 / b.bitsPerEntry) * b.bitsPerEntry))
      &&& (2 ^ b.bitsPerEntry - 1)

/-- Modelled from the spec: `raw()` of §4.1, the method `Raw()` of a `*BitStorage`
(`bitstorage.go` is missing): the backing words unmodified. The spec does not
mention a nil receiver; it yields the empty, non-nil slice here. -/
def SpecBitStorage.raw (b : Option SpecBitStorage) : Option (List Nat) :=
  match b with
  | none => some []
  | some s => some s.words

/-- Modelled from the spec: `PaletteContainer` of `n` slots (`palette.go` is
missing), one palette and one `BitStorage` of equal size (§3). The palette is kept
as the list that `export()` returns: no list for Direct, the one value for Single,
the index-assigned list for Indirect (§4.2). The persisted form keeps this list and
the packed words and no width (§6), and the construction from it is inverse to
`export()` + `raw()` (§4.3): the width of the storage is the one that the list
determines, by a function `bitsFor` that the spec does not fix and that is a
parameter. A container of another width than its list determines has no persisted
form of its own and is not a value of this type. -/
structure SpecContainer (n : Nat) (bitsFor : List Nat → Nat) where
  palette : List Nat
  words : List Nat
  inv : bitsFor palette = 0 ∨ words.length = BitStorage.wordCount (bitsFor palette) n

/-- Modelled from the spec: the `BitStorage` that a container owns (`palette.go` is
missing). -/
def SpecContainer.data {n : Nat} {bitsFor : List Nat → Nat} (c : SpecContainer n bitsFor) :
    SpecBitStorage :=
  ⟨bitsFor c.palette, n, c.words, c.inv⟩

/-- Modelled from the spec: `valueFor(id)` of §4.2 (`palette.go` is missing). Direct:
the id is the value; Single: the stored value regardless of the id; Indirect:
`list[id]`, where an id past the end reads as 0. -/
def SpecContainer.valueFor (palette : List Nat) (id : Nat) : Nat :=
  match palette with
  | [] => id
  | [v] => v
  | l => l.getD id 0

/-- Modelled from the spec: `get(i) = palette.valueFor(storage.get(i))` of §4.3
(`palette.go` is missing). -/
def SpecContainer.Get {n : Nat} {bitsFor : List Nat → Nat} (c : SpecContainer n bitsFor)
    (i : Nat) : Nat :=
  SpecContainer.valueFor c.palette (c.data.get i)

theorem toInt16_of_isInt16 {x : Int} (h : isInt16 x) : toInt16 x = x := by
  unfold isInt16 at h
  unfold toInt16
  omega

theorem toInt32_of_isInt32 {x : Int} (h : isInt32 x) : toInt32 x = x := by
  unfold isInt32 at h
  unfold toInt32
  omega

theorem toInt8_of_isInt8 {x : Int} (h : isInt8 x) : toInt8 x = x := by
  unfold isInt8 at h
  unfold toInt8
  omega

theorem isInt32_toInt32 (x : Int) : isInt32 (toInt32 x) := by
  unfold isInt32 toInt32
  omega

theorem isInt8_toInt8 (x : Int) : isInt8 (toInt8 x) := by
  unfold isInt8 toInt8
  omega

/-! ## `bits.Len` -/

theorem bits.lenAux_spec (fuel : Nat) : ∀ x : Nat, x < 2 ^ fuel →
    x < 2 ^ bits.lenAux fuel x ∧ (0 < x → 2 ^ (bits.lenAux fuel x - 1) ≤ x) ∧
    (bits.lenAux fuel x = 0 ↔ x = 0) := by
  induction fuel with
  | zero =>
    intro x hx
    have h0 : x = 0 := by simpa using hx
    subst h0
    simp [bits.lenAux]
  | succ n ih =>
    intro x hx
    by_cases h0 : x = 0
    · subst h0
      simp [bits.lenAux]
    · have hlt : x / 2 < 2 ^ n := by
        rw [Nat.div_lt_iff_lt_mul (by decide)]
        rw [pow_succ] at hx
        exact hx
      obtain ⟨h1, h2, h3⟩ := ih (x / 2) hlt
      simp only [bits.lenAux, if_neg h0]
      refine ⟨?_, ?_, ?_⟩
      · rw [pow_succ]
        omega
      · intro _
        simp only [Nat.add_sub_cancel]
        by_cases hh : x / 2 = 0
        · rw [h3.mpr hh]
          simp
          omega
        · have hpos : 0 < x / 2 := Nat.pos_of_ne_zero hh
          have h2a := h2 hpos
          have hne : bits.lenAux n (x / 2) ≠ 0 := fun h => hh (h3.mp h)
          obtain ⟨k, hk⟩ := Nat.exists_eq_succ_of_ne_zero hne
          rw [hk] at h2a ⊢
          simp only [Nat.succ_sub_one] at h2a
          rw [Nat.succ_eq_add_one, pow_succ]
          omega
      · simp [h0]

/-! ## Block entities -/

theorem PackXZ_nibbles : ∀ x z : Fin 16,
    Int.land (toUint8 (toInt8 (Int.lor ((x.val : Int) <<< (4 : Int)) (z.val : Int)))
      >>> (4 : Int)) 0xF = (x.val : Int) ∧
    Int.land (toUint8 (toInt8 (Int.lor ((x.val : Int) <<< (4 : Int)) (z.val : Int)))) 0xF
      = (z.val : Int) ∧
    isInt8 (toInt8 (Int.lor ((x.val : Int) <<< (4 : Int)) (z.val : Int))) ∧
    (8 ≤ x.val ↔ toInt8 (Int.lor ((x.val : Int) <<< (4 : Int)) (z.val : Int)) < 0) := by
  decide

/-- C8: `PackXZ(X, Z)` returns true exactly when both coordinates are in `0..15`; after a
successful call `UnpackXZ` returns `(X, Z)`, the stored byte is an `int8` that is
negative exactly when `X ≥ 8`, and the other fields are untouched; after a failed
call the receiver is unchanged. -/
theorem PackXZ_UnpackXZ {Raw : Type} (b : BlockEntity Raw) (X Z : Int) :
    ((b.PackXZ X Z).2 = true ↔ (0 ≤ X ∧ X ≤ 15 ∧ 0 ≤ Z ∧ Z ≤ 15)) ∧
    ((b.PackXZ X Z).2 = true →
      (b.PackXZ X Z).1.UnpackXZ = (X, Z) ∧
      isInt8 (b.PackXZ X Z).1.XZ ∧
      (8 ≤ X ↔ (b.PackXZ X Z).1.XZ < 0) ∧
      (b.PackXZ X Z).1.Y = b.Y ∧
      (b.PackXZ X Z).1.EntityType = b.EntityType ∧
      (b.PackXZ X Z).1.Data = b.Data) ∧
    ((b.PackXZ X Z).2 = false → (b.PackXZ X Z).1 = b) := by
  by_cases hg : X > 0xF ∨ Z > 0xF ∨ X < 0 ∨ Z < 0
  · have hp : b.PackXZ X Z = (b, false) := by simp only [BlockEntity.PackXZ, if_pos hg]
    rw [hp]
    refine ⟨?_, ?_, ?_⟩
    · constructor
      · intro h
        cases h
      · intro h
        omega
    · intro h
      cases h
    · intro _
      rfl
  · have hp : b.PackXZ X Z = ({ b with XZ := toInt8 (Int.lor (X <<< (4 : Int)) Z) }, true) := by
      simp only [BlockEntity.PackXZ, if_neg hg]
    have hX : 0 ≤ X ∧ X ≤ 15 := by omega
    have hZ : 0 ≤ Z ∧ Z ≤ 15 := by omega
    obtain ⟨x, rfl⟩ : ∃ x : Fin 16, X = (x.val : Int) :=
      ⟨⟨X.toNat, by omega⟩, by simp; omega⟩
    obtain ⟨z, rfl⟩ : ∃ z : Fin 16, Z = (z.val : Int) :=
      ⟨⟨Z.toNat, by omega⟩, by simp; omega⟩
    obtain ⟨n1, n2, n3, n4⟩ := PackXZ_nibbles x z
    rw [hp]
    refine ⟨?_, ?_, ?_⟩
    · constructor
      · intro _
        omega
      · intro _
        rfl
    · intro _
      refine ⟨?_, n3, ?_, rfl, rfl, rfl⟩
      · simp only [BlockEntity.UnpackXZ]
        rw [n1, n2]
      · constructor
        · intro h
          exact n4.mp (by exact_mod_cast h)
        · intro h
          exact_mod_cast n4.mpr h
    · intro h
      cases h

/-- Witness for C8 at the corner `(15, 15)`, whose packed byte is `-1`. -/
theorem PackXZ_UnpackXZ_witness :
    ((⟨0, 0, 0, ()⟩ : BlockEntity Unit).PackXZ 15 15).2 = true ∧
    ((⟨0, 0, 0, ()⟩ : BlockEntity Unit).PackXZ 15 15).1.UnpackXZ = (15, 15) ∧
    ((⟨0, 0, 0, ()⟩ : BlockEntity Unit).PackXZ 15 15).1.XZ = -1 :=
  ⟨((PackXZ_UnpackXZ (⟨0, 0, 0, ()⟩ : BlockEntity Unit) 15 15).1).mpr (by decide),
   ((PackXZ_UnpackXZ (⟨0, 0, 0, ()⟩ : BlockEntity Unit) 15 15).2.1 (by decide)).1,
   by decide⟩

/-! ## Bit sets -/

theorem testBit_not64 (w i : Nat) :
    (not64 w).testBit i = (decide (i < 64) && !w.testBit i) := by
  unfold not64
  rw [Nat.testBit_mod_two_pow, Nat.testBit_xor, Nat.testBit_two_pow_sub_one]
  by_cases h : i < 64 <;> simp [h]

theorem not64_lt (w : Nat) : not64 w < 2 ^ 64 := Nat.mod_lt _ (by decide)

theorem testBit_of_lt_word {w i : Nat} (h : w < 2 ^ 64) (hi : ¬ i < 64) :
    w.testBit i = false :=
  Nat.testBit_lt_two_pow (lt_of_lt_of_le h (Nat.pow_le_pow_right (by decide) (by omega)))

theorem not64_not64 {w : Nat} (h : w < 2 ^ 64) : not64 (not64 w) = w := by
  apply Nat.eq_of_testBit_eq
  intro i
  rw [testBit_not64, testBit_not64]
  by_cases hi : i < 64
  · simp [hi]
  · simp [hi, testBit_of_lt_word h hi]

theorem and_not64 (w : Nat) : w &&& not64 w = 0 := by
  apply Nat.eq_of_testBit_eq
  intro i
  rw [Nat.testBit_and, testBit_not64]
  by_cases hi : i < 64 <;> simp [hi]

theorem or_not64 {w : Nat} (h : w < 2 ^ 64) : w ||| not64 w = 2 ^ 64 - 1 := by
  apply Nat.eq_of_testBit_eq
  intro i
  rw [Nat.testBit_or, testBit_not64, Nat.testBit_two_pow_sub_one]
  by_cases hi : i < 64
  · simp [hi]
  · simp [hi, testBit_of_lt_word h hi]

theorem bitSetRev_getD (m : BitSet) (i : Nat) (hi : i < m.length) :
    (bitSetRev m).getD i 0 = not64 (m.getD i 0) := by
  unfold bitSetRev
  rw [List.getD_eq_getElem _ _ (by simpa using hi), List.getD_eq_getElem _ _ hi,
    List.getElem_map]

/-- C4: the complement mask written by `lightData.WriteTo` has as many words as the
mask, and each of its bits below `64 * len` is set exactly when the bit of the mask
is clear; word by word, mask AND complement is zero and mask OR complement is all
ones; complementing twice gives the mask back; and the tuple written holds the
masks themselves, unmodified, before their complements. -/
theorem bitSetRev_exact_inverse (m : BitSet) (hm : m.WF) :
    (bitSetRev m).length = m.length ∧
    (bitSetRev m).WF ∧
    (∀ p : Nat, p < 64 * m.length → (bitSetRev m).Get p = !m.Get p) ∧
    (∀ i : Nat, i < m.length →
      m.getD i 0 &&& (bitSetRev m).getD i 0 = 0 ∧
      m.getD i 0 ||| (bitSetRev m).getD i 0 = 2 ^ 64 - 1) ∧
    bitSetRev (bitSetRev m) = m ∧
    (∀ l : lightData, l.SkyLightMask = m →
      l.WriteTo.get? 1 = some (.bitSet m) ∧
      l.WriteTo.get? 3 = some (.bitSet (bitSetRev m))) ∧
    (∀ l : lightData, l.BlockLightMask = m →
      l.WriteTo.get? 2 = some (.bitSet m) ∧
      l.WriteTo.get? 4 = some (.bitSet (bitSetRev m))) := by
  refine ⟨by simp [bitSetRev], ?_, ?_, ?_, ?_, ?_, ?_⟩
  · intro w hw
    simp only [bitSetRev, List.mem_map] at hw
    obtain ⟨a, _, rfl⟩ := hw
    exact not64_lt a
  · intro p hp
    have hi : p / 64 < m.length := by
      apply Nat.div_lt_of_lt_mul
      exact hp
    simp only [BitSet.Get]
    rw [bitSetRev_getD m _ hi, testBit_not64]
    have : p % 64 < 64 := Nat.mod_lt _ (by decide)
    simp [this]
  · intro i hi
    rw [bitSetRev_getD m i hi]
    have hw : m.getD i 0 < 2 ^ 64 := by
      rw [List.getD_eq_getElem _ _ hi]
      exact hm _ (List.getElem_mem _)
    exact ⟨and_not64 _, or_not64 hw⟩
  · unfold bitSetRev
    rw [List.map_map]
    conv_rhs => rw [← List.map_id m]
    apply List.map_congr_left
    intro w hw
    exact not64_not64 (hm w hw)
  · intro l hl
    subst hl
    exact ⟨rfl, rfl⟩
  · intro l hl
    subst hl
    exact ⟨rfl, rfl⟩

/-- Witness for C4 on a two-word mask. -/
theorem bitSetRev_exact_inverse_witness :
    BitSet.WF [5, 2 ^ 64 - 1] ∧
    bitSetRev (bitSetRev [5, 2 ^ 64 - 1]) = [5, 2 ^ 64 - 1] ∧
    (bitSetRev [5, 2 ^ 64 - 1]).Get 1 = !BitSet.Get [5, 2 ^ 64 - 1] 1 :=
  ⟨by unfold BitSet.WF; decide,
   (bitSetRev_exact_inverse [5, 2 ^ 64 - 1] (by unfold BitSet.WF; decide)).2.2.2.2.1,
   (bitSetRev_exact_inverse [5, 2 ^ 64 - 1] (by unfold BitSet.WF; decide)).2.2.1 1
     (by decide)⟩

/-! ## Counting the slots that are not air -/

theorem filter_range_update (p q : Nat → Bool) (i : Nat) : ∀ n : Nat, i < n →
    (∀ j : Nat, j < n → j ≠ i → q j = p j) →
    ((List.range n).filter q).length + (if p i then 1 else 0)
      = ((List.range n).filter p).length + (if q i then 1 else 0) := by
  intro n
  induction n with
  | zero =>
    intro h
    omega
  | succ n ih =>
    intro hi hq
    rw [List.range_succ, List.filter_append, List.filter_append, List.length_append,
      List.length_append]
    by_cases hin : i = n
    · subst hin
      have hsame : (List.range i).filter q = (List.range i).filter p := by
        apply List.filter_congr
        intro j hj
        have hj1 : j < i := List.mem_range.mp hj
        exact hq j (by omega) (by omega)
      rw [hsame]
      cases hp : p i <;> cases hq1 : q i <;> simp [List.filter, hp, hq1]
    · have hlt : i < n := by omega
      have h1 := ih hlt (fun j hj hne => hq j (by omega) hne)
      have hn : q n = p n := hq n (by omega) (by omega)
      simp only [List.filter, hn]
      omega

theorem filter_range_le (p : Nat → Bool) (n : Nat) : ((List.range n).filter p).length ≤ n := by
  have := List.length_filter_le p (List.range n)
  simpa using this

theorem filter_range_pos (p : Nat → Bool) (i n : Nat) (hi : i < n) (hp : p i = true) :
    1 ≤ ((List.range n).filter p).length := by
  have hmem : i ∈ (List.range n).filter p := by
    rw [List.mem_filter]
    exact ⟨List.mem_range.mpr hi, hp⟩
  exact List.length_pos_of_mem hmem

theorem nonAirCount_le (E : Env) (st : E.States) (n : Nat) : nonAirCount E st n ≤ n :=
  filter_range_le _ n

/-- The counter update of `SetBlock` on the count of non-air slots. -/
theorem nonAirCount_Set (E : Env) (n : Nat) (hlaw : E.states.GetSet n) (st : E.States)
    (i : Nat) (v : BlocksState) (hi : i < n) :
    (nonAirCount E (E.states.Set st i v) n : Int)
      = (nonAirCount E st n : Int) - (if E.IsAir (E.states.Get st i) then 0 else 1)
        + (if E.IsAir v then 0 else 1) := by
  have h := filter_range_update (fun j => !E.IsAir (E.states.Get st j))
    (fun j => !E.IsAir (E.states.Get (E.states.Set st i v) j)) i n hi
    (by
      intro j hj hne
      simp only [hlaw st i v hi j hj, if_neg hne])
  have hself : E.states.Get (E.states.Set st i v) i = v := by
    rw [hlaw st i v hi i hi, if_pos rfl]
  simp only [hself] at h
  unfold nonAirCount
  cases h1 : E.IsAir (E.states.Get st i) <;> cases h2 : E.IsAir v <;>
    simp [h1, h2] at h ⊢ <;> omega

/-- The invariant of a section: its container is there and `BlockCount` is the
number of its slots that are not air. -/
theorem SetBlock_keeps_count (E : Env) (hlaw : E.states.GetSet 4096) (s : Section E)
    (st : E.States) (hst : s.States = some st)
    (hc : s.BlockCount = (nonAirCount E st 4096 : Int)) (i : Nat) (v : BlocksState)
    (hi : i < 4096) :
    ∃ s1, s.SetBlock i v = some s1 ∧ s1.States = some (E.states.Set st i v) ∧
      s1.BlockCount = (nonAirCount E (E.states.Set st i v) 4096 : Int) ∧
      s1.Biomes = s.Biomes ∧ s1.SkyLight = s.SkyLight ∧ s1.BlockLight = s.BlockLight := by
  have hle := nonAirCount_le E st 4096
  have hnew := nonAirCount_Set E 4096 hlaw st i v hi
  have hpos : E.IsAir (E.states.Get st i) = false → 1 ≤ nonAirCount E st 4096 := by
    intro h
    exact filter_range_pos _ i 4096 hi (by simp [h])
  simp only [Section.SetBlock, hst]
  refine ⟨_, rfl, rfl, ?_, rfl, rfl, rfl⟩
  rw [hnew]
  simp only [hc]
  cases h1 : E.IsAir (E.states.Get st i) <;> cases h2 : E.IsAir v
  · have := hpos h1
    simp [toInt16]
    omega
  · have := hpos h1
    simp [toInt16]
    omega
  · simp [toInt16]
    omega
  · simp

theorem SetBlocks_keeps_count (E : Env) (hlaw : E.states.GetSet 4096) :
    ∀ (calls : List (Nat × BlocksState)) (s : Section E) (st : E.States),
      s.States = some st → s.BlockCount = (nonAirCount E st 4096 : Int) →
      (∀ c ∈ calls, c.1 < 4096) →
      ∃ s1 st1, s.SetBlocks calls = some s1 ∧ s1.States = some st1 ∧
        s1.BlockCount = (nonAirCount E st1 4096 : Int) := by
  intro calls
  induction calls with
  | nil =>
    intro s st hst hc _
    exact ⟨s, st, rfl, hst, hc⟩
  | cons c rest ih =>
    intro s st hst hc hall
    obtain ⟨i, v⟩ := c
    have hi : i < 4096 := hall (i, v) (List.mem_cons_self _ _)
    obtain ⟨s1, h1, h2, h3, _⟩ := SetBlock_keeps_count E hlaw s st hst hc i v hi
    obtain ⟨s2, st2, h4, h5, h6⟩ :=
      ih s1 _ h2 h3 (fun c hc1 => hall c (List.mem_cons_of_mem _ hc1))
    refine ⟨s2, st2, ?_, h5, h6⟩
    simp only [Section.SetBlocks, h1]
    exact h4

theorem nonAirCount_eq_zero (E : Env) (st : E.States) (n : Nat)
    (h : ∀ j : Nat, j < n → E.IsAir (E.states.Get st j) = true) : nonAirCount E st n = 0 := by
  unfold nonAirCount
  rw [List.length_eq_zero, List.filter_eq_nil_iff]
  intro j hj
  simp [h j (List.mem_range.mp hj)]

/-- C1: starting from the empty section of `EmptyChunk`, whose 4096 slots are air,
every finite sequence of `SetBlock(i, v)` calls with `i < 4096` runs to its end and
leaves `BlockCount` equal to the number of slots `j < 4096` whose block is not air,
provided the container reads back a write and leaves the other slots alone. In
particular a `SetBlock(0, v)` with a non-air `v` (such as 5) gives `GetBlock(0) = v`
and `BlockCount = 1`, and a following `SetBlock(0, a)` with an air `a` gives
`BlockCount = 0`. -/
theorem SetBlock_BlockCount_exact (E : Env) (hlaw : E.states.GetSet 4096)
    (hair : ∀ j : Nat, j < 4096 → E.IsAir (E.states.Get (E.states.New 4096 0) j) = true) :
    (Section.empty E).BlockCount = 0 ∧
    (∀ calls : List (Nat × BlocksState), (∀ c ∈ calls, c.1 < 4096) →
      ∃ s st, (Section.empty E).SetBlocks calls = some s ∧ s.States = some st ∧
        (∀ j : Nat, s.GetBlock j = some (E.states.Get st j)) ∧
        s.BlockCount = (nonAirCount E st 4096 : Int)) ∧
    (∀ v a : BlocksState, E.IsAir v = false → E.IsAir a = true →
      ∃ s1 s2, (Section.empty E).SetBlock 0 v = some s1 ∧ s1.GetBlock 0 = some v ∧
        s1.BlockCount = 1 ∧ s1.SetBlock 0 a = some s2 ∧ s2.BlockCount = 0) := by
  have hst0 : (Section.empty E).States = some (E.states.New 4096 0) := rfl
  have hzero : nonAirCount E (E.states.New 4096 0) 4096 = 0 :=
    nonAirCount_eq_zero E _ 4096 hair
  have hc0 : (Section.empty E).BlockCount = (nonAirCount E (E.states.New 4096 0) 4096 : Int) := by
    rw [hzero]
    rfl
  refine ⟨rfl, ?_, ?_⟩
  · intro calls hall
    obtain ⟨s, st, h1, h2, h3⟩ :=
      SetBlocks_keeps_count E hlaw calls (Section.empty E) _ hst0 hc0 hall
    refine ⟨s, st, h1, h2, ?_, h3⟩
    intro j
    simp only [Section.GetBlock, h2]
  · intro v a hv ha
    obtain ⟨s1, h1, h2, h3, _⟩ :=
      SetBlock_keeps_count E hlaw (Section.empty E) _ hst0 hc0 0 v (by decide)
    obtain ⟨s2, h4, h5, h6, _⟩ := SetBlock_keeps_count E hlaw s1 _ h2 h3 0 a (by decide)
    have hget : E.states.Get (E.states.Set (E.states.New 4096 0) 0 v) 0 = v := by
      rw [hlaw _ 0 v (by decide) 0 (by decide), if_pos rfl]
    have hn1 := nonAirCount_Set E 4096 hlaw (E.states.New 4096 0) 0 v (by decide)
    have hn2 := nonAirCount_Set E 4096 hlaw (E.states.Set (E.states.New 4096 0) 0 v) 0 a
      (by decide)
    rw [hzero, hair 0 (by decide), hv] at hn1
    rw [hget, hv, ha] at hn2
    refine ⟨s1, s2, h1, ?_, ?_, h4, ?_⟩
    · simp only [Section.GetBlock, h2, hget]
    · rw [h3, hn1]
      simp
    · rw [h6, hn2, hn1]
      simp

theorem refOps_GetSet (n : Nat) : (refOps n).GetSet n := by
  intro c i v _ j _
  by_cases h : j = i
  · simp [refOps, h]
  · simp [refOps, h]

/-- Witness for C1 on the reference container, where state 0 is air and state 5 is
not: two calls on slot 0, the second one clearing it again. -/
theorem SetBlock_BlockCount_exact_witness :
    refEnv.states.GetSet 4096 ∧
    (∃ s st, (Section.empty refEnv).SetBlocks [(0, 5), (7, 1), (0, 0)] = some s ∧
      s.States = some st ∧
      (∀ j : Nat, s.GetBlock j = some (refEnv.states.Get st j)) ∧
      s.BlockCount = (nonAirCount refEnv st 4096 : Int)) ∧
    (∃ s1 s2, (Section.empty refEnv).SetBlock 0 5 = some s1 ∧ s1.GetBlock 0 = some 5 ∧
      s1.BlockCount = 1 ∧ s1.SetBlock 0 0 = some s2 ∧ s2.BlockCount = 0) :=
  ⟨refOps_GetSet 4096,
   (SetBlock_BlockCount_exact refEnv (refOps_GetSet 4096) (fun _ _ => rfl)).2.1
     [(0, 5), (7, 1), (0, 0)] (by decide),
   (SetBlock_BlockCount_exact refEnv (refOps_GetSet 4096) (fun _ _ => rfl)).2.2 5 0 rfl rfl⟩

/-! ## The light masks of `Chunk.WriteTo` -/

theorem BitSet.Get_Set (m : BitSet) (hlen : m.length = 64) (hwf : m.WF) (i : Nat)
    (hi : i < 4096) :
    ∃ m1, m.Set i true = some m1 ∧ m1.length = 64 ∧ m1.WF ∧
      ∀ p : Nat, m1.Get p = (m.Get p || decide (p = i)) := by
  have hw : i / 64 < m.length := by
    rw [hlen]
    omega
  have hk : i % 64 < 64 := Nat.mod_lt _ (by decide)
  have hword : m.getD (i / 64) 0 < 2 ^ 64 := by
    rw [List.getD_eq_getElem _ _ hw]
    exact hwf _ (List.getElem_mem _)
  have hset : m.Set i true
      = some (m.set (i / 64) (m.getD (i / 64) 0 ||| (1 <<< (i % 64)))) := by
    simp only [BitSet.Set, if_pos hw, if_true]
  refine ⟨_, hset, ?_, ?_, ?_⟩
  · simp [hlen]
  · intro w hmem
    rcases List.mem_or_eq_of_mem_set hmem with h | h
    · exact hwf w h
    · rw [h, Nat.one_shiftLeft]
      exact Nat.or_lt_two_pow hword (Nat.pow_lt_pow_right (by decide) hk)
  · intro p
    simp only [BitSet.Get, List.getD_eq_getElem?_getD, List.getElem?_set]
    by_cases hp : i / 64 = p / 64
    · rw [if_pos hp, if_pos hw]
      simp only [Option.getD_some, Nat.testBit_or, Nat.one_shiftLeft, Nat.testBit_two_pow, hp]
      congr 1
      by_cases hpi : p = i
      · subst hpi
        simp
      · have : i % 64 ≠ p % 64 := by omega
        simp [this, hpi]
    · rw [if_neg hp]
      have : p ≠ i := by
        intro h
        exact hp (by rw [h])
      simp [this]

theorem LightInv_nil {E : Env} (f : Section E → Option (List Nat)) :
    LightInv f [] (List.replicate 64 0) [] := by
  refine ⟨by simp, ?_, ?_, rfl⟩
  · intro w hw
    rw [List.eq_of_mem_replicate hw]
    decide
  · intro p
    have hg : BitSet.Get (List.replicate 64 0) p = false := by
      simp only [BitSet.Get, List.getD_eq_getElem?_getD, List.getElem?_replicate]
      split <;> simp
    rw [hg]
    simp

theorem LightInv_skip {E : Env} (f : Section E → Option (List Nat)) (pre : List (Section E))
    (mask : BitSet) (arrays : List (List Nat)) (v : Section E) (hv : f v = none)
    (h : LightInv f pre mask arrays) : LightInv f (pre ++ [v]) mask arrays := by
  obtain ⟨h1, h2, h3, h4⟩ := h
  refine ⟨h1, h2, ?_, ?_⟩
  · intro p
    rw [h3 p]
    simp only [List.get?_eq_getElem?, List.getElem?_append]
    constructor
    · rintro ⟨s, hs, hne⟩
      have hlt : p < pre.length := (List.getElem?_eq_some.mp hs).1
      exact ⟨s, by rw [if_pos hlt]; exact hs, hne⟩
    · rintro ⟨s, hs, hne⟩
      by_cases hlt : p < pre.length
      · rw [if_pos hlt] at hs
        exact ⟨s, hs, hne⟩
      · rw [if_neg hlt] at hs
        have hp0 : p - pre.length = 0 := by
          by_contra hc
          have : [v][p - pre.length]? = none := List.getElem?_eq_none (by simp; omega)
          rw [this] at hs
          cases hs
        rw [hp0] at hs
        simp at hs
        subst hs
        exact absurd hv hne
  · rw [List.filterMap_append, h4]
    simp [List.filterMap, hv]

theorem LightInv_set {E : Env} (f : Section E → Option (List Nat)) (pre : List (Section E))
    (mask : BitSet) (arrays : List (List Nat)) (v : Section E) (a : List Nat)
    (hv : f v = some a) (hlen : pre.length < 4096) (h : LightInv f pre mask arrays) :
    ∃ m1, mask.Set pre.length true = some m1 ∧ LightInv f (pre ++ [v]) m1 (arrays ++ [a]) := by
  obtain ⟨h1, h2, h3, h4⟩ := h
  obtain ⟨m1, e1, e2, e3, e4⟩ := BitSet.Get_Set mask h1 h2 pre.length hlen
  refine ⟨m1, e1, e2, e3, ?_, ?_⟩
  · intro p
    rw [e4 p, Bool.or_eq_true, h3 p]
    simp only [List.get?_eq_getElem?, List.getElem?_append, decide_eq_true_eq]
    constructor
    · rintro (⟨s, hs, hne⟩ | hp)
      · have hlt : p < pre.length := (List.getElem?_eq_some.mp hs).1
        exact ⟨s, by rw [if_pos hlt]; exact hs, hne⟩
      · subst hp
        refine ⟨v, by simp, ?_⟩
        rw [hv]
        simp
    · rintro ⟨s, hs, hne⟩
      by_cases hlt : p < pre.length
      · rw [if_pos hlt] at hs
        exact Or.inl ⟨s, hs, hne⟩
      · rw [if_neg hlt] at hs
        right
        by_contra hc
        have : [v][p - pre.length]? = none := List.getElem?_eq_none (by simp; omega)
        rw [this] at hs
        cases hs
  · rw [List.filterMap_append, h4]
    simp [List.filterMap, hv]

theorem lightLoop_inv {E : Env} : ∀ (rest pre : List (Section E)) (light : lightData),
    LightInv (fun s => s.SkyLight) pre light.SkyLightMask light.SkyLight →
    LightInv (fun s => s.BlockLight) pre light.BlockLightMask light.BlockLight →
    pre.length + rest.length ≤ 4096 →
    ∃ l, Chunk.WriteTo.lightLoop light pre.length rest = some l ∧
      LightInv (fun s => s.SkyLight) (pre ++ rest) l.SkyLightMask l.SkyLight ∧
      LightInv (fun s => s.BlockLight) (pre ++ rest) l.BlockLightMask l.BlockLight := by
  intro rest
  induction rest with
  | nil =>
    intro pre light hs hb _
    exact ⟨light, rfl, by simpa using hs, by simpa using hb⟩
  | cons v rest ih =>
    intro pre light hs hb hlen
    simp only [List.length_cons] at hlen
    have hpre : pre.length < 4096 := by omega
    have hstep : ∃ l1, Chunk.WriteTo.lightStep light pre.length v = some l1 ∧
        LightInv (fun s => s.SkyLight) (pre ++ [v]) l1.SkyLightMask l1.SkyLight ∧
        LightInv (fun s => s.BlockLight) (pre ++ [v]) l1.BlockLightMask l1.BlockLight := by
      cases hsky : v.SkyLight with
      | none =>
        have hs1 := LightInv_skip (fun s => s.SkyLight) pre _ _ v hsky hs
        cases hblk : v.BlockLight with
        | none =>
          have hb1 := LightInv_skip (fun s => s.BlockLight) pre _ _ v hblk hb
          exact ⟨light, by simp only [Chunk.WriteTo.lightStep, hsky, hblk], hs1, hb1⟩
        | some b =>
          obtain ⟨m, hm, hb1⟩ := LightInv_set (fun s => s.BlockLight) pre _ _ v b hblk hpre hb
          exact ⟨{ light with BlockLightMask := m, BlockLight := light.BlockLight ++ [b] },
            by simp only [Chunk.WriteTo.lightStep, hsky, hblk, hm], hs1, hb1⟩
      | some a =>
        obtain ⟨ms, hms, hs1⟩ := LightInv_set (fun s => s.SkyLight) pre _ _ v a hsky hpre hs
        cases hblk : v.BlockLight with
        | none =>
          have hb1 := LightInv_skip (fun s => s.BlockLight) pre _ _ v hblk hb
          exact ⟨{ light with SkyLightMask := ms, SkyLight := light.SkyLight ++ [a] },
            by simp only [Chunk.WriteTo.lightStep, hsky, hblk, hms], hs1, hb1⟩
        | some b =>
          obtain ⟨m, hm, hb1⟩ := LightInv_set (fun s => s.BlockLight) pre _ _ v b hblk hpre hb
          exact ⟨{ SkyLightMask := ms, BlockLightMask := m
                   SkyLight := light.SkyLight ++ [a], BlockLight := light.BlockLight ++ [b] },
            by simp only [Chunk.WriteTo.lightStep, hsky, hblk, hms, hm], hs1, hb1⟩
    obtain ⟨l1, hl1, hs1, hb1⟩ := hstep
    have hlen1 : (pre ++ [v]).length + rest.length ≤ 4096 := by
      simp only [List.length_append, List.length_singleton]
      omega
    obtain ⟨l, hl, hs2, hb2⟩ := ih (pre ++ [v]) l1 hs1 hb1 hlen1
    refine ⟨l, ?_, by simpa using hs2, by simpa using hb2⟩
    simp only [Chunk.WriteTo.lightLoop, hl1]
    simpa using hl
theorem filter_range_getElem {α : Type} (g : α → Bool) : ∀ (l : List α) (n : Nat),
    l.length ≤ n →
    ((List.range n).filter (fun p => (l[p]?).elim false g)).length = l.countP g := by
  intro l
  induction l with
  | nil =>
    intro n _
    simp
  | cons a t ih =>
    intro n hn
    obtain ⟨m, rfl⟩ : ∃ m, n = m + 1 := ⟨n - 1, by simp at hn; omega⟩
    have hm : t.length ≤ m := by
      simp at hn
      omega
    rw [List.range_succ_eq_map, List.filter_cons, List.filter_map, List.countP_cons]
    have hcomp : ((fun p => ((a :: t)[p]?).elim false g) ∘ Nat.succ)
        = (fun p => (t[p]?).elim false g) := by
      funext p
      simp
    rw [hcomp]
    cases hg : g a
    · simp [hg, ih m hm]
    · simp [hg, ih m hm]

theorem length_filterMap_countP {α β : Type} (f : α → Option β) (l : List α) :
    (l.filterMap f).length = l.countP (fun s => (f s).isSome) := by
  induction l with
  | nil => rfl
  | cons a t ih =>
    cases h : f a
    · simp [List.filterMap_cons, h, ih]
    · simp [List.filterMap_cons, h, ih]

theorem LightInv_count {E : Env} (f : Section E → Option (List Nat)) (all : List (Section E))
    (mask : BitSet) (arrays : List (List Nat)) (hlen : all.length ≤ 4096)
    (h : LightInv f all mask arrays) : arrays.length = mask.count 4096 := by
  obtain ⟨_, _, h3, h4⟩ := h
  have hpred : ∀ p : Nat, mask.Get p = (all[p]?).elim false (fun s => (f s).isSome) := by
    intro p
    have hp := h3 p
    rw [List.get?_eq_getElem?] at hp
    cases hall : all[p]? with
    | none =>
      rw [hall] at hp
      simp only [Option.elim]
      cases hg : mask.Get p
      · rfl
      · obtain ⟨s, hs, _⟩ := hp.mp hg
        cases hs
    | some s =>
      rw [hall] at hp
      simp only [Option.elim]
      cases hfs : f s with
      | none =>
        cases hg : mask.Get p
        · rfl
        · obtain ⟨s1, hs1, hne⟩ := hp.mp hg
          cases hs1
          exact absurd hfs hne
      | some a =>
        simp only [Option.isSome_some]
        exact hp.mpr ⟨s, rfl, by rw [hfs]; simp⟩
  have hfun : mask.Get = (fun p => (all[p]?).elim false (fun s => (f s).isSome)) :=
    funext hpred
  unfold BitSet.count
  rw [hfun, filter_range_getElem (fun s => (f s).isSome) all 4096 hlen, h4,
    length_filterMap_countP]

/-- C5: for a chunk of at most 4096 sections the light loop of `Chunk.WriteTo` runs
to its end; both masks have 64 words; bit `p` of the sky-light mask is set exactly
when section `p` exists and its `SkyLight` is not nil; the sky-light arrays are the
non-nil `SkyLight` arrays in section order, as many as the mask has bits set; the
same holds for the block light; and this is the light data that `Chunk.WriteTo` writes. -/
theorem WriteTo_light_masks {E : Env} (c : Chunk E) (h : c.Sections.length ≤ 4096) :
    ∃ l, Chunk.WriteTo.light c = some l ∧
      (∀ w, c.WriteTo = some w → w.Light = l.WriteTo) ∧
      l.SkyLightMask.length = 64 ∧ l.BlockLightMask.length = 64 ∧
      (∀ p : Nat, l.SkyLightMask.Get p = true ↔
        ∃ s, c.Sections.get? p = some s ∧ s.SkyLight ≠ none) ∧
      l.SkyLight = c.Sections.filterMap (fun s => s.SkyLight) ∧
      l.SkyLight.length = l.SkyLightMask.count 4096 ∧
      (∀ p : Nat, l.BlockLightMask.Get p = true ↔
        ∃ s, c.Sections.get? p = some s ∧ s.BlockLight ≠ none) ∧
      l.BlockLight = c.Sections.filterMap (fun s => s.BlockLight) ∧
      l.BlockLight.length = l.BlockLightMask.count 4096 := by
  have h64 : ((16 * 16 * 16 - 1) >>> 6 + 1) = 64 := by decide
  obtain ⟨l, hl, hs, hb⟩ := lightLoop_inv c.Sections []
    { SkyLightMask := List.replicate 64 0, BlockLightMask := List.replicate 64 0
      SkyLight := [], BlockLight := [] }
    (LightInv_nil _) (LightInv_nil _) (by simpa using h)
  simp only [List.nil_append, List.length_nil] at hl hs hb
  have hlight : Chunk.WriteTo.light c = some l := by
    simp only [Chunk.WriteTo.light, h64]
    exact hl
  refine ⟨l, hlight, ?_, hs.1, hb.1, hs.2.2.1, hs.2.2.2, LightInv_count _ _ _ _ h hs,
    hb.2.2.1, hb.2.2.2, LightInv_count _ _ _ _ h hb⟩
  intro w hw
  simp only [Chunk.WriteTo, hlight] at hw
  cases hd : c.Data with
  | none =>
    rw [hd] at hw
    cases hw
  | some d =>
    rw [hd] at hw
    simp only [Option.some.injEq] at hw
    rw [← hw]

/-- Witness for C5 on the reference chunk: sections 0 and 2 carry sky light. -/
theorem WriteTo_light_masks_witness :
    refChunk.Sections.length ≤ 4096 ∧
    ∃ l, Chunk.WriteTo.light refChunk = some l ∧
      l.SkyLight = [List.replicate 2048 255, List.replicate 2048 15] ∧
      l.SkyLightMask.count 4096 = 2 ∧
      l.SkyLightMask.Get 0 = true ∧ l.SkyLightMask.Get 1 = false := by
  refine ⟨by decide, ?_⟩
  obtain ⟨l, h1, _, _, _, h5, h6, h7, _⟩ := WriteTo_light_masks refChunk (by decide)
  have hsky : l.SkyLight = [List.replicate 2048 255, List.replicate 2048 15] := by
    rw [h6]
    rfl
  refine ⟨l, h1, hsky, ?_, ?_, ?_⟩
  · rw [← h7, hsky]
    rfl
  · rw [h5 0]
    exact ⟨_, rfl, Option.some_ne_none _⟩
  · cases hg : l.SkyLightMask.Get 1
    · rfl
    · obtain ⟨s, hs, hne⟩ := (h5 1).mp hg
      have hs1 : some (refSection none none) = some s := hs
      cases hs1
      exact absurd rfl hne

/-! ## The wire round trip of the section blob -/

theorem forall₂_get? {α β : Type} (R : α → β → Prop) : ∀ (l1 : List α) (l2 : List β),
    List.Forall₂ R l1 l2 → ∀ (k : Nat) (a : α), l1.get? k = some a →
    ∃ b, l2.get? k = some b ∧ R a b := by
  intro l1 l2 h
  induction h with
  | nil =>
    intro k a ha
    cases ha
  | cons hab _ ih =>
    intro k a ha
    cases k with
    | zero =>
      simp only [List.get?_cons_zero, Option.some.injEq] at ha
      subst ha
      exact ⟨_, rfl, hab⟩
    | succ k =>
      simp only [List.get?_cons_succ] at ha
      obtain ⟨b, hb, hr⟩ := ih k a ha
      exact ⟨b, by simpa using hb, hr⟩

/-- One section: what `WriteTo` writes, followed by any bytes, is read back by
`ReadFrom` into any section that has its containers. -/
theorem Section_ReadFrom_WriteTo {E : Env} (hshort : E.ShortRoundTrip)
    (hs : E.states.WireRoundTrip 4096) (hb : E.biomes.WireRoundTrip 64)
    (s t : Section E) (rest : List Nat)
    (hcount : isInt16 s.BlockCount) (hsS : s.States ≠ none) (hsB : s.Biomes ≠ none)
    (htS : t.States ≠ none) (htB : t.Biomes ≠ none) :
    ∃ bytes t1, s.WriteTo = some bytes ∧ t.ReadFrom (bytes ++ rest) = some (t1, rest) ∧
      t1.BlockCount = s.BlockCount ∧ s.SameSlots t1 ∧
      t1.SkyLight = t.SkyLight ∧ t1.BlockLight = t.BlockLight := by
  obtain ⟨st, hst⟩ := Option.ne_none_iff_exists'.mp hsS
  obtain ⟨bi, hbi⟩ := Option.ne_none_iff_exists'.mp hsB
  obtain ⟨tst, htst⟩ := Option.ne_none_iff_exists'.mp htS
  obtain ⟨tbi, htbi⟩ := Option.ne_none_iff_exists'.mp htB
  obtain ⟨b2, bi1, hw2, hr2, hg2⟩ := hb bi tbi rest
  obtain ⟨b1, st1, hw1, hr1, hg1⟩ := hs st tst (b2 ++ rest)
  have hr0 := hshort s.BlockCount (b1 ++ (b2 ++ rest)) hcount
  refine ⟨E.WriteShort s.BlockCount ++ b1 ++ b2,
    { t with BlockCount := s.BlockCount, States := some st1, Biomes := some bi1 }, ?_, ?_,
    rfl, ⟨st, st1, bi, bi1, hst, rfl, hbi, rfl, hg1, hg2⟩, rfl, rfl⟩
  · simp only [Section.WriteTo, hst, hw1, hbi, hw2]
  · have happ : E.WriteShort s.BlockCount ++ b1 ++ b2 ++ rest
        = E.WriteShort s.BlockCount ++ (b1 ++ (b2 ++ rest)) := by
      simp only [List.append_assoc]
    rw [happ]
    simp only [Section.ReadFrom, hr0, htst, hr1, htbi, hr2]

/-- The loops of `Data` and `PutData`: the sections are read back in order from
the concatenated bytes. -/
theorem PutData_loop_Data_loop {E : Env} (hshort : E.ShortRoundTrip)
    (hs : E.states.WireRoundTrip 4096) (hb : E.biomes.WireRoundTrip 64) :
    ∀ (src tgt : List (Section E)) (rest : List Nat), tgt.length = src.length →
      (∀ s ∈ src, isInt16 s.BlockCount ∧ s.States ≠ none ∧ s.Biomes ≠ none) →
      (∀ t ∈ tgt, t.States ≠ none ∧ t.Biomes ≠ none) →
      ∃ data out, Chunk.Data.loop src = some data ∧
        Chunk.PutData.loop tgt (data ++ rest) = some out ∧
        List.Forall₂ (fun s t1 => t1.BlockCount = s.BlockCount ∧ s.SameSlots t1) src out := by
  intro src
  induction src with
  | nil =>
    intro tgt rest hlen _ _
    have : tgt = [] := List.length_eq_zero.mp hlen
    subst this
    exact ⟨[], [], rfl, rfl, List.Forall₂.nil⟩
  | cons s src ih =>
    intro tgt rest hlen hsrc htgt
    cases tgt with
    | nil => cases hlen
    | cons t tgt =>
      simp only [List.length_cons, Nat.add_right_cancel_iff] at hlen
      obtain ⟨h1, h2, h3⟩ := hsrc s (List.mem_cons_self _ _)
      obtain ⟨h4, h5⟩ := htgt t (List.mem_cons_self _ _)
      obtain ⟨data, out, hd, hp, hall⟩ := ih tgt rest hlen
        (fun x hx => hsrc x (List.mem_cons_of_mem _ hx))
        (fun x hx => htgt x (List.mem_cons_of_mem _ hx))
      obtain ⟨bytes, t1, hw, hr, hc, hsame, _⟩ :=
        Section_ReadFrom_WriteTo hshort hs hb s t (data ++ rest) h1 h2 h3 h4 h5
      refine ⟨bytes ++ data, t1 :: out, ?_, ?_, List.Forall₂.cons ⟨hc, hsame⟩ hall⟩
      · simp only [Chunk.Data.loop, hw, hd]
      · rw [List.append_assoc]
        simp only [Chunk.PutData.loop, hr, hp]

/-- C2: when the wire encodings of the block count and of the two containers are
self-delimiting round trips, then for every chunk `c` whose sections have their
containers and an `int16` block count, and every chunk `c2` with as many sections,
all with their containers, `c.Data()` succeeds, `c2.PutData` of these bytes succeeds,
and afterwards section `k` of `c2` has the block count of section `k` of `c` and the
same value in each of the 4096 block-state slots and each of the 64 biome slots;
the rest of `c2` is unchanged. -/
theorem PutData_Data_roundtrip {E : Env} (hshort : E.ShortRoundTrip)
    (hs : E.states.WireRoundTrip 4096) (hb : E.biomes.WireRoundTrip 64)
    (c c2 : Chunk E) (hlen : c2.Sections.length = c.Sections.length)
    (hc : ∀ s ∈ c.Sections, isInt16 s.BlockCount ∧ s.States ≠ none ∧ s.Biomes ≠ none)
    (hc2 : ∀ t ∈ c2.Sections, t.States ≠ none ∧ t.Biomes ≠ none) :
    ∃ data c3, c.Data = some data ∧ c2.PutData data = some c3 ∧
      c3.Sections.length = c.Sections.length ∧
      (∀ (k : Nat) (s : Section E), c.Sections.get? k = some s →
        ∃ t, c3.Sections.get? k = some t ∧ t.BlockCount = s.BlockCount ∧ s.SameSlots t) ∧
      c3.HeightMaps = c2.HeightMaps ∧ c3.BlockEntity = c2.BlockEntity ∧
      c3.Status = c2.Status := by
  obtain ⟨data, out, hd, hp, hall⟩ :=
    PutData_loop_Data_loop hshort hs hb c.Sections c2.Sections [] hlen hc hc2
  rw [List.append_nil] at hp
  refine ⟨data, { c2 with Sections := out }, hd, ?_, ?_, ?_, rfl, rfl, rfl⟩
  · simp only [Chunk.PutData, hp]
  · exact hall.length_eq.symm
  · intro k s hk
    exact forall₂_get? _ _ _ hall k s hk
theorem refOps_WireRoundTrip (n : Nat) : (refOps n).WireRoundTrip n := by
  intro src tgt rest
  have hlen : ((List.range n).map (fun j => src.palette.getD (src.index j) 0)).length = n := by
    simp
  refine ⟨(List.range n).map (fun j => src.palette.getD (src.index j) 0),
    { palette := (List.range n).map (fun j => src.palette.getD (src.index j) 0),
      index := fun j => j }, rfl, ?_, ?_⟩
  · have hle : n ≤ ((List.range n).map (fun j => src.palette.getD (src.index j) 0)
        ++ rest).length := by
      rw [List.length_append, hlen]
      omega
    simp only [refOps, if_pos hle]
    have htake : List.take n ((List.range n).map (fun j => src.palette.getD (src.index j) 0)
        ++ rest) = (List.range n).map (fun j => src.palette.getD (src.index j) 0) := by
      rw [List.take_append_of_le_length (by rw [hlen])]
      exact List.take_of_length_le (by rw [hlen])
    have hdrop : List.drop n ((List.range n).map (fun j => src.palette.getD (src.index j) 0)
        ++ rest) = rest := by
      have := List.drop_left ((List.range n).map (fun j => src.palette.getD (src.index j) 0)) rest
      rw [hlen] at this
      exact this
    rw [htake, hdrop]
  · intro j hj
    simp only [refOps]
    rw [List.getD_eq_getElem _ _ (by rw [hlen]; exact hj)]
    simp

theorem refEnv_ShortRoundTrip : refEnv.ShortRoundTrip := by
  intro v rest hv
  unfold isInt16 at hv
  have h1 : 0 ≤ v % 65536 / 256 := by omega
  have h2 : 0 ≤ v % 256 := by omega
  simp only [refEnv, List.cons_append, List.nil_append, Int.toNat_of_nonneg h1,
    Int.toNat_of_nonneg h2, toInt16]
  congr 2
  omega

theorem refChunk2_sections : ∀ s ∈ refChunk2.Sections,
    isInt16 s.BlockCount ∧ s.States ≠ none ∧ s.Biomes ≠ none := by
  show ∀ s ∈ [refStone, refSection none none, refStone], _
  refine List.forall_mem_cons.mpr ⟨?_, List.forall_mem_cons.mpr ⟨?_,
    List.forall_mem_cons.mpr ⟨?_, fun _ h => absurd h (List.not_mem_nil _)⟩⟩⟩
  · exact ⟨by decide, Option.some_ne_none _, Option.some_ne_none _⟩
  · exact ⟨by decide, Option.some_ne_none _, Option.some_ne_none _⟩
  · exact ⟨by decide, Option.some_ne_none _, Option.some_ne_none _⟩

theorem refChunk_sections : ∀ s ∈ refChunk.Sections, s.States ≠ none ∧ s.Biomes ≠ none := by
  show ∀ s ∈ [refSection _ _, refSection _ _, refSection _ _], _
  refine List.forall_mem_cons.mpr ⟨?_, List.forall_mem_cons.mpr ⟨?_,
    List.forall_mem_cons.mpr ⟨?_, fun _ h => absurd h (List.not_mem_nil _)⟩⟩⟩
  · exact ⟨Option.some_ne_none _, Option.some_ne_none _⟩
  · exact ⟨Option.some_ne_none _, Option.some_ne_none _⟩
  · exact ⟨Option.some_ne_none _, Option.some_ne_none _⟩

/-- Witness for C2: the bytes of `refChunk2` are read into `refChunk`, whose first
section then has stone in slot 0 and a block count of 1. -/
theorem PutData_Data_roundtrip_witness :
    refEnv.ShortRoundTrip ∧ refEnv.states.WireRoundTrip 4096 ∧
    refEnv.biomes.WireRoundTrip 64 ∧
    ∃ data c3, refChunk2.Data = some data ∧ refChunk.PutData data = some c3 ∧
      c3.Sections.length = 3 ∧
      ∃ t, c3.Sections.get? 0 = some t ∧ t.BlockCount = 1 ∧ t.GetBlock 0 = some 1 := by
  refine ⟨refEnv_ShortRoundTrip, refOps_WireRoundTrip 4096, refOps_WireRoundTrip 64, ?_⟩
  obtain ⟨data, c3, h1, h2, h3, h4, _⟩ :=
    PutData_Data_roundtrip refEnv_ShortRoundTrip (refOps_WireRoundTrip 4096)
      (refOps_WireRoundTrip 64) refChunk2 refChunk rfl refChunk2_sections refChunk_sections
  obtain ⟨t, ht, hc, st, st1, _, _, hst, hst1, _, _, hg, _⟩ := h4 0 refStone rfl
  refine ⟨data, c3, h1, h2, h3, t, ht, hc, ?_⟩
  have hst0 : st = refEnv.states.Set (refEnv.states.New 4096 0) 0 1 :=
    (Option.some.inj hst).symm
  simp only [Section.GetBlock, hst1, hg 0 (by decide), hst0]
  rfl

/-! ## `countNoneAirBlocks` -/

theorem countNoneAirBlocks_loop {E : Env} (sec : Section E) (st : E.States)
    (hst : sec.States = some st) : ∀ (slots : List Nat) (blockCount : Int),
    0 ≤ blockCount → blockCount + slots.length ≤ 32767 →
    countNoneAirBlocks.loop sec slots blockCount
      = some (blockCount + ((slots.filter (fun j => !E.IsAir (E.states.Get st j))).length : Nat)) := by
  intro slots
  induction slots with
  | nil =>
    intro blockCount _ _
    simp [countNoneAirBlocks.loop]
  | cons i rest ih =>
    intro blockCount h0 hle
    simp only [List.length_cons, Nat.cast_add, Nat.cast_one] at hle
    have hget : sec.GetBlock i = some (E.states.Get st i) := by
      simp only [Section.GetBlock, hst]
    simp only [countNoneAirBlocks.loop, hget]
    cases hair : E.IsAir (E.states.Get st i)
    · have hw : toInt16 (blockCount + 1) = blockCount + 1 := by
        unfold toInt16
        omega
      simp only [Bool.not_false, if_true, hw]
      rw [ih (blockCount + 1) (by omega) (by omega)]
      simp only [List.filter_cons, hair, Bool.not_false, if_true, List.length_cons,
        Nat.cast_add, Nat.cast_one]
      congr 1
      omega
    · simp only [Bool.not_true, Bool.false_eq_true, if_false]
      rw [ih blockCount h0 (by omega)]
      simp only [List.filter_cons, hair, Bool.not_true, Bool.false_eq_true, if_false]

/-- The function `countNoneAirBlocks` returns the number of the 4096 slots that are
not air; its 16-bit counter never wraps. -/
theorem countNoneAirBlocks_eq {E : Env} (sec : Section E) (st : E.States)
    (hst : sec.States = some st) :
    countNoneAirBlocks sec = some (nonAirCount E st 4096 : Int) := by
  unfold countNoneAirBlocks
  have h4096 : (16 * 16 * 16 : Nat) = 4096 := by decide
  have hle : (0 : Int) + ((List.range 4096).length : Nat) ≤ 32767 := by
    rw [List.length_range]
    decide
  rw [h4096, countNoneAirBlocks_loop sec st hst (List.range 4096) 0 (le_refl 0) hle,
    Int.zero_add]
  rfl

/-! ## The section loop of `ChunkFromSave` -/

/-- A round of the section loop succeeds when the index passes the bounds check
and both palettes are read. -/
theorem sectionStep_ok {E : Env} (c : save.Chunk E) (secs : Nat) (sections : List (Section E))
    (v : save.Section E) (st : E.States) (bi : E.Biomes)
    (hlo : 0 ≤ ChunkFromSave.index c v) (hhi : ChunkFromSave.index c v < toInt32 secs)
    (hlen : (ChunkFromSave.index c v).toNat < sections.length)
    (hst : readStatesPalette E v.BlockStates.Palette v.BlockStates.Data = .ok st)
    (hbi : readBiomesPalette E v.Biomes.Palette v.Biomes.Data = .ok bi) :
    ChunkFromSave.sectionStep c secs sections v
      = .ok (sections.set (ChunkFromSave.index c v).toNat
          { BlockCount := (nonAirCount E st 4096 : Int)
            States := some st
            Biomes := some bi
            SkyLight := v.SkyLight
            BlockLight := v.BlockLight }) := by
  have hg : ¬ (ChunkFromSave.index c v < 0 ∨ ChunkFromSave.index c v ≥ toInt32 secs) := by
    omega
  obtain ⟨sec, hsec⟩ : ∃ sec, sections.get? (ChunkFromSave.index c v).toNat = some sec :=
    ⟨_, List.get?_eq_get hlen⟩
  have hcount : countNoneAirBlocks ({ sec with States := some st } : Section E)
      = some (nonAirCount E st 4096 : Int) := countNoneAirBlocks_eq _ st rfl
  simp only [ChunkFromSave.sectionStep, if_neg hg, hsec, hst, hcount, hbi]

/-- What a successful round of the section loop has done. -/
theorem sectionStep_inv {E : Env} (c : save.Chunk E) (secs : Nat)
    (sections out : List (Section E)) (v : save.Section E)
    (h : ChunkFromSave.sectionStep c secs sections v = .ok out) :
    0 ≤ ChunkFromSave.index c v ∧ ChunkFromSave.index c v < toInt32 secs ∧
    (ChunkFromSave.index c v).toNat < sections.length ∧
    ∃ sec, ChunkFromSave.Built v sec ∧
      out = sections.set (ChunkFromSave.index c v).toNat sec := by
  by_cases hg : ChunkFromSave.index c v < 0 ∨ ChunkFromSave.index c v ≥ toInt32 secs
  · simp only [ChunkFromSave.sectionStep, if_pos hg] at h
    cases h
  · simp only [ChunkFromSave.sectionStep, if_neg hg] at h
    cases hsec : sections.get? (ChunkFromSave.index c v).toNat with
    | none =>
      rw [hsec] at h
      cases h
    | some sec =>
      rw [hsec] at h
      have hlen : (ChunkFromSave.index c v).toNat < sections.length := by
        rw [List.get?_eq_getElem?] at hsec
        exact (List.getElem?_eq_some.mp hsec).1
      cases hst : readStatesPalette E v.BlockStates.Palette v.BlockStates.Data with
      | error e =>
        rw [hst] at h
        cases h
      | ok st =>
        rw [hst] at h
        have hcount : countNoneAirBlocks ({ sec with States := some st } : Section E)
            = some (nonAirCount E st 4096 : Int) := countNoneAirBlocks_eq _ st rfl
        simp only [hcount] at h
        cases hbi : readBiomesPalette E v.Biomes.Palette v.Biomes.Data with
        | error e =>
          rw [hbi] at h
          cases h
        | ok bi =>
          rw [hbi] at h
          simp only [Except.ok.injEq] at h
          refine ⟨by omega, by omega, hlen, _, ⟨st, bi, hst, hbi, rfl⟩, h.symm⟩
/-- What a successful run of the section loop has done: the slice keeps its length,
every persisted section passed the bounds check, and every index holds either the
section built from a persisted section with that index, or what it held before. -/
theorem sectionLoop_inv {E : Env} (c : save.Chunk E) (secs : Nat) :
    ∀ (vs : List (save.Section E)) (sections out : List (Section E)),
    ChunkFromSave.sectionLoop c secs sections vs = .ok out →
    out.length = sections.length ∧
    (∀ v ∈ vs, 0 ≤ ChunkFromSave.index c v ∧ ChunkFromSave.index c v < toInt32 secs ∧
      (ChunkFromSave.index c v).toNat < sections.length) ∧
    (∀ k : Nat,
      (∃ v ∈ vs, (ChunkFromSave.index c v).toNat = k ∧
        ∃ sec, out.get? k = some sec ∧ ChunkFromSave.Built v sec) ∨
      ((∀ v ∈ vs, (ChunkFromSave.index c v).toNat ≠ k) ∧ out.get? k = sections.get? k)) := by
  intro vs
  induction vs with
  | nil =>
    intro sections out h
    simp only [ChunkFromSave.sectionLoop, Except.ok.injEq] at h
    subst h
    refine ⟨rfl, ?_, ?_⟩
    · intro v hv
      cases hv
    · intro k
      exact Or.inr ⟨fun v hv => absurd hv (List.not_mem_nil v), rfl⟩
  | cons v rest ih =>
    intro sections out h
    cases hstep : ChunkFromSave.sectionStep c secs sections v with
    | error e =>
      simp only [ChunkFromSave.sectionLoop, hstep] at h
      cases h
    | ok s1 =>
      simp only [ChunkFromSave.sectionLoop, hstep] at h
      obtain ⟨hlo, hhi, hlen, sec, hbuilt, hs1⟩ := sectionStep_inv c secs sections s1 v hstep
      obtain ⟨h1, h2, h3⟩ := ih s1 out h
      have hlen1 : s1.length = sections.length := by
        rw [hs1, List.length_set]
      refine ⟨by rw [h1, hlen1], ?_, ?_⟩
      · intro w hw
        rcases List.mem_cons.mp hw with rfl | hw
        · exact ⟨hlo, hhi, hlen⟩
        · obtain ⟨a, b, d⟩ := h2 w hw
          exact ⟨a, b, by rw [← hlen1]; exact d⟩
      · intro k
        rcases h3 k with ⟨w, hw, hk, hsec⟩ | ⟨hno, hget⟩
        · exact Or.inl ⟨w, List.mem_cons_of_mem _ hw, hk, hsec⟩
        · by_cases hk : (ChunkFromSave.index c v).toNat = k
          · left
            refine ⟨v, List.mem_cons_self _ _, hk, sec, ?_, hbuilt⟩
            rw [hget, hs1, ← hk, List.get?_eq_getElem?, List.getElem?_set_self hlen]
          · right
            refine ⟨?_, ?_⟩
            · intro w hw
              rcases List.mem_cons.mp hw with rfl | hw
              · exact hk
              · exact hno w hw
            · rw [hget, hs1, List.get?_eq_getElem?, List.get?_eq_getElem?,
                List.getElem?_set_ne hk]

/-- The section loop runs to its end when every persisted section passes the
bounds check and has readable palettes. -/
theorem sectionLoop_ok {E : Env} (c : save.Chunk E) (secs : Nat) :
    ∀ (vs : List (save.Section E)) (sections : List (Section E)),
    (∀ v ∈ vs, 0 ≤ ChunkFromSave.index c v ∧ ChunkFromSave.index c v < toInt32 secs ∧
      (ChunkFromSave.index c v).toNat < sections.length ∧
      (∃ st, readStatesPalette E v.BlockStates.Palette v.BlockStates.Data = .ok st) ∧
      (∃ bi, readBiomesPalette E v.Biomes.Palette v.Biomes.Data = .ok bi)) →
    ∃ out, ChunkFromSave.sectionLoop c secs sections vs = .ok out := by
  intro vs
  induction vs with
  | nil =>
    intro sections _
    exact ⟨sections, rfl⟩
  | cons v rest ih =>
    intro sections hall
    obtain ⟨hlo, hhi, hlen, ⟨st, hst⟩, ⟨bi, hbi⟩⟩ := hall v (List.mem_cons_self _ _)
    have hstep := sectionStep_ok c secs sections v st bi hlo hhi hlen hst hbi
    obtain ⟨out, hout⟩ := ih (sections.set (ChunkFromSave.index c v).toNat
        { BlockCount := (nonAirCount E st 4096 : Int)
          States := some st
          Biomes := some bi
          SkyLight := v.SkyLight
          BlockLight := v.BlockLight })
      (by
        intro w hw
        obtain ⟨a, b, d, e, f⟩ := hall w (List.mem_cons_of_mem _ hw)
        exact ⟨a, b, by rw [List.length_set]; exact d, e, f⟩)
    exact ⟨out, by simp only [ChunkFromSave.sectionLoop, hstep]; exact hout⟩

/-- The parts of a successful `ChunkFromSave`. -/
theorem ChunkFromSave_inv {E : Env} (c : save.Chunk E) (ch : Chunk E)
    (h : ChunkFromSave c = .ok ch) :
    ChunkFromSave.sectionLoop c c.Sections.length
      (List.replicate c.Sections.length (Section.zero E)) c.Sections = .ok ch.Sections ∧
    ChunkFromSave.blockEntities c c.BlockEntities = .ok ch.BlockEntity ∧
    ChunkFromSave.heightMaps E (bitsForHeight c.Sections.length) c.Heightmaps
      = .ok ch.HeightMaps ∧
    ch.Status = c.Status := by
  unfold ChunkFromSave at h
  cases h1 : ChunkFromSave.sectionLoop c c.Sections.length
      (List.replicate c.Sections.length (Section.zero E)) c.Sections with
  | error e =>
    simp only [h1] at h
    cases h
  | ok sections =>
    cases h2 : ChunkFromSave.blockEntities c c.BlockEntities with
    | error e =>
      simp only [h1, h2] at h
      cases h
    | ok bes =>
      cases h3 : ChunkFromSave.heightMaps E (bitsForHeight c.Sections.length) c.Heightmaps with
      | error e =>
        simp only [h1, h2, h3] at h
        cases h
      | ok hm =>
        simp only [h1, h2, h3, Except.ok.injEq] at h
        subst h
        exact ⟨rfl, rfl, rfl, rfl⟩

/-- The function `ChunkFromSave` succeeds when its three parts do. -/
theorem ChunkFromSave_ok {E : Env} (c : save.Chunk E) (sections : List (Section E))
    (bes : List (BlockEntity E.RawMessage)) (hm : HeightMaps E)
    (h1 : ChunkFromSave.sectionLoop c c.Sections.length
      (List.replicate c.Sections.length (Section.zero E)) c.Sections = .ok sections)
    (h2 : ChunkFromSave.blockEntities c c.BlockEntities = .ok bes)
    (h3 : ChunkFromSave.heightMaps E (bitsForHeight c.Sections.length) c.Heightmaps = .ok hm) :
    ChunkFromSave c
      = .ok { Sections := sections, HeightMaps := hm, BlockEntity := bes, Status := c.Status } := by
  simp only [ChunkFromSave, h1, h2, h3]

/-! ## The sections of an imported chunk -/

theorem refSave_ok : ∃ ch, ChunkFromSave refSave = .ok ch := by
  obtain ⟨out, hout⟩ := sectionLoop_ok refSave refSave.Sections.length refSave.Sections
    (List.replicate refSave.Sections.length (Section.zero refEnv))
    (by
      show ∀ v ∈ [refSaveSection _ _, refSaveSection _ _], _
      refine List.forall_mem_cons.mpr ⟨?_, List.forall_mem_cons.mpr ⟨?_,
        fun _ h => absurd h (List.not_mem_nil _)⟩⟩
      · exact ⟨by decide, by decide, by decide, ⟨_, rfl⟩, ⟨_, rfl⟩⟩
      · exact ⟨by decide, by decide, by decide, ⟨_, rfl⟩, ⟨_, rfl⟩⟩)
  exact ⟨_, ChunkFromSave_ok refSave out _ _ hout rfl rfl⟩

theorem refSaveDup_ok : ∃ ch, ChunkFromSave refSaveDup = .ok ch := by
  obtain ⟨out, hout⟩ := sectionLoop_ok refSaveDup refSaveDup.Sections.length
    refSaveDup.Sections (List.replicate refSaveDup.Sections.length (Section.zero refEnv))
    (by
      show ∀ v ∈ [refSaveSection _ _, refSaveSection _ _], _
      refine List.forall_mem_cons.mpr ⟨?_, List.forall_mem_cons.mpr ⟨?_,
        fun _ h => absurd h (List.not_mem_nil _)⟩⟩
      · exact ⟨by decide, by decide, by decide, ⟨_, rfl⟩, ⟨_, rfl⟩⟩
      · exact ⟨by decide, by decide, by decide, ⟨_, rfl⟩, ⟨_, rfl⟩⟩)
  exact ⟨_, ChunkFromSave_ok refSaveDup out _ _ hout rfl rfl⟩

/-- C7: in the chunk of a successful `ChunkFromSave`, the section stored for a
persisted section has its block-state container, and its `BlockCount` is the number
of the 4096 slots of that container that are not air, which is what
`countNoneAirBlocks` returns for it, at most 4096 and so within `int16`; a section
that no persisted section was stored into is the zero section. -/
theorem ChunkFromSave_BlockCount {E : Env} (c : save.Chunk E) (ch : Chunk E)
    (h : ChunkFromSave c = .ok ch) :
    (∀ v ∈ c.Sections, ∃ sec st,
      ch.Sections.get? (ChunkFromSave.index c v).toNat = some sec ∧
      sec.States = some st ∧ sec.BlockCount = (nonAirCount E st 4096 : Int)) ∧
    (∀ (k : Nat) (sec : Section E), ch.Sections.get? k = some sec →
      (∃ st, sec.States = some st ∧ sec.BlockCount = (nonAirCount E st 4096 : Int) ∧
        countNoneAirBlocks sec = some sec.BlockCount ∧
        0 ≤ sec.BlockCount ∧ sec.BlockCount ≤ 4096 ∧ isInt16 sec.BlockCount) ∨
      sec = Section.zero E) := by
  obtain ⟨hloop, _, _, _⟩ := ChunkFromSave_inv c ch h
  obtain ⟨_, _, h3⟩ := sectionLoop_inv c _ _ _ _ hloop
  constructor
  · intro v hv
    rcases h3 (ChunkFromSave.index c v).toNat with ⟨w, _, _, sec, hsec, st, bi, _, _, hb⟩ |
      ⟨hno, _⟩
    · exact ⟨sec, st, hsec, by rw [hb], by rw [hb]⟩
    · exact absurd rfl (hno v hv)
  · intro k sec hk
    rcases h3 k with ⟨w, _, _, sec1, hsec, st, bi, _, _, hb⟩ | ⟨_, hget⟩
    · rw [hk] at hsec
      cases hsec
      left
      have hle := nonAirCount_le E st 4096
      have hst : sec.States = some st := by rw [hb]
      have hbc : sec.BlockCount = (nonAirCount E st 4096 : Int) := by rw [hb]
      refine ⟨st, hst, hbc, ?_, ?_, ?_, ?_⟩
      · rw [countNoneAirBlocks_eq sec st hst, hbc]
      · rw [hbc]
        omega
      · rw [hbc]
        omega
      · unfold isInt16
        rw [hbc]
        omega
    · right
      rw [hk, List.get?_eq_getElem?, List.getElem?_replicate] at hget
      split at hget
      · exact Option.some.inj hget
      · cases hget

/-- Witness for C7 on the reference save: both persisted sections are stored with
their container and their recomputed count. -/
theorem ChunkFromSave_BlockCount_witness :
    ∃ ch, ChunkFromSave refSave = .ok ch ∧
      ∀ v ∈ refSave.Sections, ∃ sec st,
        ch.Sections.get? (ChunkFromSave.index refSave v).toNat = some sec ∧
        sec.States = some st ∧ sec.BlockCount = (nonAirCount refEnv st 4096 : Int) := by
  obtain ⟨ch, hch⟩ := refSave_ok
  exact ⟨ch, hch, (ChunkFromSave_BlockCount refSave ch hch).1⟩

theorem mem_of_nodup_of_lt (l : List Nat) (n : Nat) (hnd : l.Nodup)
    (hlt : ∀ x ∈ l, x < n) (hlen : l.length = n) : ∀ k : Nat, k < n → k ∈ l := by
  intro k hk
  have hsub : l.toFinset ⊆ Finset.range n := by
    intro x hx
    rw [Finset.mem_range]
    exact hlt x (List.mem_toFinset.mp hx)
  have hcard : (Finset.range n).card ≤ l.toFinset.card := by
    rw [List.toFinset_card_of_nodup hnd, hlen, Finset.card_range]
  have heq := Finset.eq_of_subset_of_card_le hsub hcard
  have : k ∈ l.toFinset := by
    rw [heq]
    exact Finset.mem_range.mpr hk
  exact List.mem_toFinset.mp this

/-- C9 (amended): a successful `ChunkFromSave` yields exactly as many sections as the
persisted chunk has; every persisted section passed the 32-bit bounds check; every
index holds either the section built from a persisted section with that index or
the zero section; and when the persisted sections have pairwise distinct `Y` there
are no gaps: every index `i` holds the containers built from a persisted section
whose 32-bit index `int32(Y) - YPos` is `i`, which is the section with
`Y = YPos + i` when there are at most `2^31 - 127` sections. -/
theorem ChunkFromSave_sections {E : Env} (c : save.Chunk E) (ch : Chunk E) (hwf : c.WF)
    (h : ChunkFromSave c = .ok ch) :
    ch.Sections.length = c.Sections.length ∧
    (∀ (k : Nat) (sec : Section E), ch.Sections.get? k = some sec →
      (∃ v ∈ c.Sections, ChunkFromSave.index c v = (k : Int) ∧ ChunkFromSave.Built v sec) ∨
      sec = Section.zero E) ∧
    ((c.Sections.map (fun v => v.Y)).Nodup →
      ∀ i : Nat, i < c.Sections.length →
        ∃ v ∈ c.Sections, ChunkFromSave.index c v = (i : Int) ∧
          (c.Sections.length ≤ 2147483521 → v.Y = c.YPos + (i : Int)) ∧
          ∃ sec st bi, ch.Sections.get? i = some sec ∧ ChunkFromSave.Built v sec ∧
            sec.States = some st ∧ sec.Biomes = some bi) := by
  obtain ⟨hloop, _, _, _⟩ := ChunkFromSave_inv c ch h
  obtain ⟨h1, h2, h3⟩ := sectionLoop_inv c _ _ _ _ hloop
  rw [List.length_replicate] at h1 h2
  refine ⟨h1, ?_, ?_⟩
  · intro k sec hk
    rcases h3 k with ⟨w, hw, hidx, sec1, hsec, hb⟩ | ⟨_, hget⟩
    · rw [hk] at hsec
      cases hsec
      left
      refine ⟨w, hw, ?_, hb⟩
      have := (h2 w hw).1
      omega
    · right
      rw [hk, List.get?_eq_getElem?, List.getElem?_replicate] at hget
      split at hget
      · exact Option.some.inj hget
      · cases hget
  · intro hnd i hi
    have hinj : ∀ a ∈ c.Sections.map (fun v => v.Y), ∀ b ∈ c.Sections.map (fun v => v.Y),
        (toInt32 (toInt32 a - c.YPos)).toNat = (toInt32 (toInt32 b - c.YPos)).toNat →
        a = b := by
      intro a ha b hb hab
      obtain ⟨va, hva, rfl⟩ := List.mem_map.mp ha
      obtain ⟨vb, hvb, rfl⟩ := List.mem_map.mp hb
      have ha8 := hwf.2.2.2 va hva
      have hb8 := hwf.2.2.2 vb hvb
      have hla := (h2 va hva).1
      have hlb := (h2 vb hvb).1
      unfold ChunkFromSave.index at hla hlb
      unfold isInt8 at ha8 hb8
      have hab1 : toInt32 (toInt32 va.Y - c.YPos) = toInt32 (toInt32 vb.Y - c.YPos) := by
        omega
      unfold toInt32 at hab1
      omega
    have hnd1 : (c.Sections.map (fun v => (ChunkFromSave.index c v).toNat)).Nodup := by
      have := List.Nodup.map_on hinj hnd
      rw [List.map_map] at this
      exact this
    have hmem := mem_of_nodup_of_lt _ c.Sections.length hnd1
      (by
        intro x hx
        obtain ⟨v, hv, rfl⟩ := List.mem_map.mp hx
        exact (h2 v hv).2.2)
      (by simp) i hi
    obtain ⟨v0, hv0, hv0i⟩ := List.mem_map.mp hmem
    rcases h3 i with ⟨w, hw, hidx, sec, hsec, hb⟩ | ⟨hno, _⟩
    · have hlo := (h2 w hw).1
      refine ⟨w, hw, by omega, ?_, ?_⟩
      · intro hsmall
        have hw8 := hwf.2.2.2 w hw
        have hy := hwf.2.1
        have hhi := (h2 w hw).2.1
        have hlen := (h2 w hw).2.2
        unfold ChunkFromSave.index at hidx hlo hhi hlen
        unfold isInt8 at hw8
        unfold isInt32 at hy
        unfold toInt32 at hidx hlo hhi hlen
        omega
      · obtain ⟨st, bi, hst, hbi, hsec1⟩ := hb
        exact ⟨sec, st, bi, hsec, ⟨st, bi, hst, hbi, hsec1⟩, by rw [hsec1], by rw [hsec1]⟩
    · exact absurd hv0i (hno v0 hv0)

theorem refSave_WF : refSave.WF := by
  refine ⟨by decide, by decide, by decide, ?_⟩
  show ∀ v ∈ [refSaveSection _ _, refSaveSection _ _], _
  exact List.forall_mem_cons.mpr ⟨by decide, List.forall_mem_cons.mpr ⟨by decide,
    fun _ h => absurd h (List.not_mem_nil _)⟩⟩

/-- Witness for C9 (amended) on the reference save, whose two sections have the
heights -4 and -3: both indices hold built containers. -/
theorem ChunkFromSave_sections_witness :
    refSave.WF ∧ (refSave.Sections.map (fun v => v.Y)).Nodup ∧
    ∃ ch, ChunkFromSave refSave = .ok ch ∧ ch.Sections.length = 2 ∧
      ∀ i : Nat, i < 2 →
        ∃ v ∈ refSave.Sections, ChunkFromSave.index refSave v = (i : Int) ∧
          ∃ sec st bi, ch.Sections.get? i = some sec ∧ ChunkFromSave.Built v sec ∧
            sec.States = some st ∧ sec.Biomes = some bi := by
  refine ⟨refSave_WF, by decide, ?_⟩
  obtain ⟨ch, hch⟩ := refSave_ok
  obtain ⟨h1, _, h3⟩ := ChunkFromSave_sections refSave ch refSave_WF hch
  refine ⟨ch, hch, h1, ?_⟩
  intro i hi
  obtain ⟨v, hv, hidx, _, hrest⟩ := h3 (by decide) i hi
  exact ⟨v, hv, hidx, hrest⟩

/-- Counterexample to C9 as stated: the reference save with two sections of the same
height imports successfully into two sections, no persisted section has
`Y = YPos + 1`, and index 1 is a gap: it holds neither container. -/
theorem ChunkFromSave_gap :
    ∃ ch, ChunkFromSave refSaveDup = .ok ch ∧ ch.Sections.length = 2 ∧
      (∀ v ∈ refSaveDup.Sections, v.Y ≠ refSaveDup.YPos + 1) ∧
      ∃ sec, ch.Sections.get? 1 = some sec ∧ sec.States = none ∧ sec.Biomes = none := by
  obtain ⟨ch, hch⟩ := refSaveDup_ok
  obtain ⟨hloop, _, _, _⟩ := ChunkFromSave_inv refSaveDup ch hch
  obtain ⟨h1, _, h3⟩ := sectionLoop_inv refSaveDup _ _ _ _ hloop
  have hall : ∀ v ∈ refSaveDup.Sections,
      v.Y ≠ refSaveDup.YPos + 1 ∧ (ChunkFromSave.index refSaveDup v).toNat ≠ 1 := by
    show ∀ v ∈ [refSaveSection _ _, refSaveSection _ _], _
    exact List.forall_mem_cons.mpr ⟨by decide, List.forall_mem_cons.mpr ⟨by decide,
      fun _ h => absurd h (List.not_mem_nil _)⟩⟩
  refine ⟨ch, hch, h1, fun v hv => (hall v hv).1, ?_⟩
  rcases h3 1 with ⟨w, hw, hidx, _⟩ | ⟨_, hget⟩
  · exact absurd hidx (hall w hw).2
  · exact ⟨Section.zero refEnv, hget, rfl, rfl⟩

/-! ## The bounds check of `ChunkFromSave` -/

theorem sectionStep_error {E : Env} (c : save.Chunk E) (secs : Nat)
    (sections : List (Section E)) (v : save.Section E)
    (hg : ChunkFromSave.index c v < 0 ∨ ChunkFromSave.index c v ≥ toInt32 secs) :
    ChunkFromSave.sectionStep c secs sections v = .error (.sectionOutOfBounds v.Y) := by
  simp only [ChunkFromSave.sectionStep, if_pos hg]

/-- The section loop stops with an error when a section fails the bounds check. -/
theorem sectionLoop_error {E : Env} (c : save.Chunk E) (secs : Nat) :
    ∀ (vs : List (save.Section E)) (sections : List (Section E)),
    (∃ v ∈ vs, ChunkFromSave.index c v < 0 ∨ ChunkFromSave.index c v ≥ toInt32 secs) →
    ∃ e, ChunkFromSave.sectionLoop c secs sections vs = .error e := by
  intro vs
  induction vs with
  | nil =>
    intro sections h
    obtain ⟨v, hv, _⟩ := h
    cases hv
  | cons w rest ih =>
    intro sections h
    cases hstep : ChunkFromSave.sectionStep c secs sections w with
    | error e =>
      exact ⟨e, by simp only [ChunkFromSave.sectionLoop, hstep]⟩
    | ok s1 =>
      obtain ⟨v, hv, hg⟩ := h
      rcases List.mem_cons.mp hv with rfl | hv
      · rw [sectionStep_error c secs sections v hg] at hstep
        cases hstep
      · obtain ⟨e, he⟩ := ih s1 ⟨v, hv, hg⟩
        exact ⟨e, by simp only [ChunkFromSave.sectionLoop, hstep]; exact he⟩

/-- The section loop stops with the bounds error of `v` when the sections before `v`
are stored and `v` fails the bounds check. -/
theorem sectionLoop_first_error {E : Env} (c : save.Chunk E) (secs : Nat)
    (v : save.Section E) (post : List (save.Section E))
    (hg : ChunkFromSave.index c v < 0 ∨ ChunkFromSave.index c v ≥ toInt32 secs) :
    ∀ (pre : List (save.Section E)) (sections out : List (Section E)),
    ChunkFromSave.sectionLoop c secs sections pre = .ok out →
    ChunkFromSave.sectionLoop c secs sections (pre ++ v :: post)
      = .error (.sectionOutOfBounds v.Y) := by
  intro pre
  induction pre with
  | nil =>
    intro sections out _
    simp only [List.nil_append, ChunkFromSave.sectionLoop,
      sectionStep_error c secs sections v hg]
  | cons w rest ih =>
    intro sections out h
    cases hstep : ChunkFromSave.sectionStep c secs sections w with
    | error e =>
      simp only [ChunkFromSave.sectionLoop, hstep] at h
      cases h
    | ok s1 =>
      simp only [ChunkFromSave.sectionLoop, hstep] at h
      simp only [List.cons_append, ChunkFromSave.sectionLoop, hstep]
      exact ih s1 out h

theorem readStatesPalette_entry_error (E : Env) (v : save.BlockState E) (e : Error)
    (h : readStatesPalette.entry E v = .error e) : e ≠ .nilPointer ∧ e ≠ .indexOutOfRange := by
  unfold readStatesPalette.entry at h
  cases h1 : E.FromID v.Name with
  | none =>
    simp only [h1, Except.error.injEq] at h
    subst h
    exact ⟨by simp, by simp⟩
  | some b =>
    simp only [h1] at h
    cases h2 : (if E.hasData v.Properties then E.UnmarshalBlock v.Properties b else some b) with
    | none =>
      simp only [h2, Except.error.injEq] at h
      subst h
      exact ⟨by simp, by simp⟩
    | some b1 =>
      simp only [h2] at h
      cases h3 : E.ToStateID b1 with
      | none =>
        simp only [h3, Except.error.injEq] at h
        subst h
        exact ⟨by simp, by simp⟩
      | some s =>
        simp only [h3] at h
        cases h

theorem readStatesPalette_loop_error (E : Env) : ∀ (l : List (save.BlockState E)) (e : Error),
    readStatesPalette.loop E l = .error e → e ≠ .nilPointer ∧ e ≠ .indexOutOfRange := by
  intro l
  induction l with
  | nil =>
    intro e h
    cases h
  | cons v rest ih =>
    intro e h
    cases h1 : readStatesPalette.entry E v with
    | error e1 =>
      simp only [readStatesPalette.loop, h1, Except.error.injEq] at h
      subst h
      exact readStatesPalette_entry_error E v e1 h1
    | ok s =>
      cases h2 : readStatesPalette.loop E rest with
      | error e2 =>
        simp only [readStatesPalette.loop, h1, h2, Except.error.injEq] at h
        subst h
        exact ih e2 h2
      | ok ss =>
        simp only [readStatesPalette.loop, h1, h2] at h
        cases h

theorem readStatesPalette_error (E : Env) (l : List (save.BlockState E))
    (data : Option (List Nat)) (e : Error) (h : readStatesPalette E l data = .error e) :
    e ≠ .nilPointer ∧ e ≠ .indexOutOfRange := by
  unfold readStatesPalette at h
  cases h1 : readStatesPalette.loop E l with
  | error e1 =>
    simp only [h1, Except.error.injEq] at h
    subst h
    exact readStatesPalette_loop_error E l e1 h1
  | ok pal =>
    simp only [h1] at h
    cases h2 : E.states.NewWithData (16 * 16 * 16) data pal with
    | none =>
      simp only [h2, Except.error.injEq] at h
      subst h
      exact ⟨by simp, by simp⟩
    | some c =>
      simp only [h2] at h
      cases h

theorem readBiomesPalette_loop_error (E : Env) : ∀ (l : List String) (e : Error),
    readBiomesPalette.loop E l = .error e → e ≠ .nilPointer ∧ e ≠ .indexOutOfRange := by
  intro l
  induction l with
  | nil =>
    intro e h
    cases h
  | cons v rest ih =>
    intro e h
    cases h1 : E.BiomesIDs (strings.TrimPrefix v "minecraft:") with
    | none =>
      simp only [readBiomesPalette.loop, h1, Except.error.injEq] at h
      subst h
      exact ⟨by simp, by simp⟩
    | some s =>
      cases h2 : readBiomesPalette.loop E rest with
      | error e2 =>
        simp only [readBiomesPalette.loop, h1, h2, Except.error.injEq] at h
        subst h
        exact ih e2 h2
      | ok ss =>
        simp only [readBiomesPalette.loop, h1, h2] at h
        cases h

theorem readBiomesPalette_error (E : Env) (l : List String)
    (data : Option (List Nat)) (e : Error) (h : readBiomesPalette E l data = .error e) :
    e ≠ .nilPointer ∧ e ≠ .indexOutOfRange := by
  unfold readBiomesPalette at h
  cases h1 : readBiomesPalette.loop E l with
  | error e1 =>
    simp only [h1, Except.error.injEq] at h
    subst h
    exact readBiomesPalette_loop_error E l e1 h1
  | ok pal =>
    simp only [h1] at h
    cases h2 : E.biomes.NewWithData (4 * 4 * 4) data pal with
    | none =>
      simp only [h2, Except.error.injEq] at h
      subst h
      exact ⟨by simp, by simp⟩
    | some c =>
      simp only [h2] at h
      cases h

/-- A round of the section loop never stops on a nil container or on an index past
the slice: an index that passes the bounds check is below the length of the slice. -/
theorem sectionStep_error_kind {E : Env} (c : save.Chunk E) (secs : Nat)
    (sections : List (Section E)) (v : save.Section E) (e : Error)
    (hlen : sections.length = secs)
    (h : ChunkFromSave.sectionStep c secs sections v = .error e) :
    e ≠ .nilPointer ∧ e ≠ .indexOutOfRange := by
  by_cases hg : ChunkFromSave.index c v < 0 ∨ ChunkFromSave.index c v ≥ toInt32 secs
  · rw [sectionStep_error c secs sections v hg] at h
    simp only [Except.error.injEq] at h
    subst h
    exact ⟨by simp, by simp⟩
  · have hlt : (ChunkFromSave.index c v).toNat < sections.length := by
      rw [hlen]
      unfold toInt32 at hg
      omega
    obtain ⟨sec, hsec⟩ : ∃ sec, sections.get? (ChunkFromSave.index c v).toNat = some sec :=
      ⟨_, List.get?_eq_get hlt⟩
    simp only [ChunkFromSave.sectionStep, if_neg hg, hsec] at h
    cases hst : readStatesPalette E v.BlockStates.Palette v.BlockStates.Data with
    | error e1 =>
      simp only [hst, Except.error.injEq] at h
      subst h
      exact readStatesPalette_error E _ _ e1 hst
    | ok st =>
      have hcount : countNoneAirBlocks ({ sec with States := some st } : Section E)
          = some (nonAirCount E st 4096 : Int) := countNoneAirBlocks_eq _ st rfl
      simp only [hst, hcount] at h
      cases hbi : readBiomesPalette E v.Biomes.Palette v.Biomes.Data with
      | error e1 =>
        simp only [hbi, Except.error.injEq] at h
        subst h
        exact readBiomesPalette_error E _ _ e1 hbi
      | ok bi =>
        simp only [hbi] at h
        cases h

theorem sectionLoop_error_kind {E : Env} (c : save.Chunk E) (secs : Nat) :
    ∀ (vs : List (save.Section E)) (sections : List (Section E)) (e : Error),
    sections.length = secs →
    ChunkFromSave.sectionLoop c secs sections vs = .error e →
    e ≠ .nilPointer ∧ e ≠ .indexOutOfRange := by
  intro vs
  induction vs with
  | nil =>
    intro sections e _ h
    cases h
  | cons v rest ih =>
    intro sections e hlen h
    cases hstep : ChunkFromSave.sectionStep c secs sections v with
    | error e1 =>
      simp only [ChunkFromSave.sectionLoop, hstep, Except.error.injEq] at h
      subst h
      exact sectionStep_error_kind c secs sections v e1 hlen hstep
    | ok s1 =>
      simp only [ChunkFromSave.sectionLoop, hstep] at h
      obtain ⟨_, _, _, sec, _, hs1⟩ := sectionStep_inv c secs sections s1 v hstep
      exact ih s1 e (by rw [hs1, List.length_set]; exact hlen) h

/-- The failures of the section loop of `ChunkFromSave` are the errors that
`chunk.go` returns or the rejection of backing data by a container constructor. -/
theorem ChunkFromSave_sections_error_kind {E : Env} (c : save.Chunk E) (e : Error)
    (h : ChunkFromSave.sectionLoop c c.Sections.length
      (List.replicate c.Sections.length (Section.zero E)) c.Sections = .error e) :
    e ≠ .nilPointer ∧ e ≠ .indexOutOfRange :=
  sectionLoop_error_kind c c.Sections.length c.Sections _ e (List.length_replicate _ _) h

/-- The 32-bit index fails the bounds check whenever the exact difference `Y - YPos`
lies outside `[0, secs)`, for `secs ≤ 2^31 - 127`. -/
theorem index_out_of_bounds {E : Env} (c : save.Chunk E) (v : save.Section E) (secs : Nat)
    (hy : isInt8 v.Y) (hpos : isInt32 c.YPos) (hsecs : secs ≤ 2147483521)
    (hout : v.Y - c.YPos < 0 ∨ (secs : Int) ≤ v.Y - c.YPos) :
    ChunkFromSave.index c v < 0 ∨ ChunkFromSave.index c v ≥ toInt32 secs := by
  unfold isInt8 at hy
  unfold isInt32 at hpos
  unfold ChunkFromSave.index toInt32
  omega

/-- C6 (amended): for every persisted chunk of at most `2^31 - 127` sections that
contains a section whose vertical index `Y - YPos` lies outside `[0, sectionCount)`,
`ChunkFromSave` yields no chunk, also when the 32-bit subtraction wraps around: it
stops with one of the errors that `chunk.go` returns, or with the rejection of the
backing data of an earlier section by a container constructor; and when the
sections before that section are stored, the error is the bounds error carrying
its `Y`. -/
theorem ChunkFromSave_out_of_bounds {E : Env} (c : save.Chunk E) (hwf : c.WF)
    (hsecs : c.Sections.length ≤ 2147483521) (v : save.Section E) (hv : v ∈ c.Sections)
    (hout : v.Y - c.YPos < 0 ∨ (c.Sections.length : Int) ≤ v.Y - c.YPos) :
    (∃ e, ChunkFromSave c = .error e ∧ e ≠ .nilPointer ∧ e ≠ .indexOutOfRange) ∧
    (∀ ch, ChunkFromSave c ≠ .ok ch) ∧
    (∀ (pre post : List (save.Section E)) (out : List (Section E)),
      c.Sections = pre ++ v :: post →
      ChunkFromSave.sectionLoop c c.Sections.length
        (List.replicate c.Sections.length (Section.zero E)) pre = .ok out →
      ChunkFromSave c = .error (.sectionOutOfBounds v.Y)) := by
  have hg := index_out_of_bounds c v c.Sections.length (hwf.2.2.2 v hv) hwf.2.1 hsecs hout
  obtain ⟨e, he⟩ := sectionLoop_error c c.Sections.length c.Sections
    (List.replicate c.Sections.length (Section.zero E)) ⟨v, hv, hg⟩
  have herr : ChunkFromSave c = .error e := by
    simp only [ChunkFromSave, he]
  refine ⟨⟨e, herr, ChunkFromSave_sections_error_kind c e he⟩, ?_, ?_⟩
  · intro ch hch
    rw [herr] at hch
    cases hch
  · intro pre post out hsplit hpre
    have h1 := sectionLoop_first_error c c.Sections.length v post hg pre _ out hpre
    rw [← hsplit] at h1
    simp only [ChunkFromSave, h1]

/-- Witness for C6 (amended): the reference save moved to `YPos = 2^31 - 1`, where the
subtraction wraps around for both sections. -/
theorem ChunkFromSave_out_of_bounds_witness :
    ({ refSave with YPos := 2147483647 } : save.Chunk refEnv).WF ∧
    ChunkFromSave ({ refSave with YPos := 2147483647 } : save.Chunk refEnv)
      = .error (.sectionOutOfBounds (-4)) := by
  have hwf : ({ refSave with YPos := 2147483647 } : save.Chunk refEnv).WF := by
    refine ⟨by decide, by decide, by decide, ?_⟩
    show ∀ v ∈ [refSaveSection _ _, refSaveSection _ _], _
    exact List.forall_mem_cons.mpr ⟨by decide, List.forall_mem_cons.mpr ⟨by decide,
      fun _ h => absurd h (List.not_mem_nil _)⟩⟩
  exact ⟨hwf, (ChunkFromSave_out_of_bounds _ hwf (by decide)
    (refSaveSection (-4) [⟨"minecraft:stone", []⟩, ⟨"minecraft:lever", [1]⟩])
    (List.mem_cons_self _ _) (by decide)).2.2 [] _ _ rfl rfl⟩

/-- Counterexample to C6 as stated: in the reference save of `2^31 - 126` sections at
height -128 over `YPos = 2^31 - 1`, every section has the vertical index
`Y - YPos = -2^31 - 127`, outside `[0, sectionCount)`, the 32-bit difference wraps to
`2^31 - 127`, which passes the bounds check, and `ChunkFromSave` returns a chunk. -/
theorem ChunkFromSave_wrapped_index_accepted :
    refSaveHuge.WF ∧ refSaveHuge.Sections.length = 2147483522 ∧
    (∀ v ∈ refSaveHuge.Sections, v.Y - refSaveHuge.YPos = -2147483775 ∧
      ChunkFromSave.index refSaveHuge v = 2147483521) ∧
    ∃ ch, ChunkFromSave refSaveHuge = .ok ch := by
  have hlen : refSaveHuge.Sections.length = 2147483522 := List.length_replicate _ _
  have hmem : ∀ v ∈ refSaveHuge.Sections,
      v = refSaveSection (-128) [⟨"minecraft:air", []⟩] :=
    fun v hv => List.eq_of_mem_replicate hv
  refine ⟨⟨by decide, by decide, by decide, ?_⟩, hlen, ?_, ?_⟩
  · intro v hv
    rw [hmem v hv]
    decide
  · intro v hv
    rw [hmem v hv]
    exact ⟨by decide, by decide⟩
  · obtain ⟨out, hout⟩ := sectionLoop_ok refSaveHuge refSaveHuge.Sections.length
      refSaveHuge.Sections (List.replicate refSaveHuge.Sections.length (Section.zero refEnv))
      (by
        intro v hv
        rw [hmem v hv, List.length_replicate, hlen]
        exact ⟨by decide, by decide, by decide, ⟨_, rfl⟩, ⟨_, rfl⟩⟩)
    exact ⟨_, ChunkFromSave_ok refSaveHuge out _ _ hout rfl rfl⟩

/-! ## The persisted round trip -/

/-- C10: for a section count whose height `secs * 16` fits in a 64-bit `uint`, the
heightmap width `w = bits.Len(secs * 16)` that `EmptyChunk` and `ChunkFromSave` pass
to `NewBitStorage` satisfies `secs * 16 < 2 ^ w`, is the least such width, has
`2 ^ (w - 1) ≤ secs * 16` when `secs > 0`, and is 0 exactly when `secs = 0`; for 16
sections it is 9. -/
theorem bitsForHeight_least (secs : Nat) (h : secs * 16 < 2 ^ 64) :
    secs * 16 < 2 ^ bitsForHeight secs ∧
    (∀ w : Nat, secs * 16 < 2 ^ w → bitsForHeight secs ≤ w) ∧
    (0 < secs → 2 ^ (bitsForHeight secs - 1) ≤ secs * 16) ∧
    (bitsForHeight secs = 0 ↔ secs = 0) ∧
    bitsForHeight 16 = 9 ∧
    (∀ (E : Env) (ch : Chunk E), EmptyChunk E secs = some ch →
      ∃ mb, E.NewBitStorage (bitsForHeight secs) 256 none = some mb ∧
        ch.HeightMaps.MotionBlocking = some mb) ∧
    (∀ (E : Env) (c : save.Chunk E) (ch : Chunk E), c.Sections.length = secs →
      ChunkFromSave c = .ok ch →
      ∃ mb, E.NewBitStorage (bitsForHeight secs) 256 c.Heightmaps.MotionBlocking = some mb ∧
        ch.HeightMaps.MotionBlocking = some mb) := by
  have hmod : secs * 16 % 2 ^ 64 = secs * 16 := Nat.mod_eq_of_lt h
  have hw : bitsForHeight secs = bits.lenAux 64 (secs * 16) := by
    simp only [bitsForHeight, bits.Len, hmod]
  obtain ⟨h1, h2, h3⟩ := bits.lenAux_spec 64 (secs * 16) h
  refine ⟨by rw [hw]; exact h1, ?_, ?_, ?_, by decide, ?_, ?_⟩
  · intro w hlt
    rw [hw]
    by_contra hcon
    have hle : w ≤ bits.lenAux 64 (secs * 16) - 1 := by omega
    have hpos : 0 < secs * 16 := by
      rcases Nat.eq_zero_or_pos (secs * 16) with h0 | h0
      · rw [h3.mpr h0] at hcon
        omega
      · exact h0
    have := h2 hpos
    have hmono : 2 ^ w ≤ 2 ^ (bits.lenAux 64 (secs * 16) - 1) :=
      Nat.pow_le_pow_right (by decide) hle
    omega
  · intro hpos
    rw [hw]
    exact h2 (by omega)
  · rw [hw, h3]
    omega
  · intro E ch hch
    have h256 : (16 * 16 : Nat) = 256 := by decide
    simp only [EmptyChunk, h256] at hch
    cases hmb : E.NewBitStorage (bitsForHeight secs) 256 none with
    | none =>
      rw [hmb] at hch
      cases hch
    | some mb =>
      rw [hmb] at hch
      simp only [Option.some.injEq] at hch
      subst hch
      exact ⟨mb, rfl, rfl⟩
  · intro E c ch hlen hch
    obtain ⟨_, _, hhm, _⟩ := ChunkFromSave_inv c ch hch
    have h256 : (16 * 16 : Nat) = 256 := by decide
    rw [hlen] at hhm
    simp only [ChunkFromSave.heightMaps, h256] at hhm
    cases hmb : E.NewBitStorage (bitsForHeight secs) 256 c.Heightmaps.MotionBlocking with
    | none =>
      rw [hmb] at hhm
      cases hhm
    | some mb =>
      rw [hmb] at hhm
      cases hb : E.NewBitStorage (bitsForHeight secs) 256 c.Heightmaps.MotionBlockingNoLeaves with
      | none =>
        rw [hb] at hhm
        cases hhm
      | some b =>
        cases hc : E.NewBitStorage (bitsForHeight secs) 256 c.Heightmaps.OceanFloor with
        | none =>
          rw [hb, hc] at hhm
          cases hhm
        | some o =>
          cases hd : E.NewBitStorage (bitsForHeight secs) 256 c.Heightmaps.WorldSurface with
          | none =>
            rw [hb, hc, hd] at hhm
            cases hhm
          | some d =>
            rw [hb, hc, hd] at hhm
            simp only [Except.ok.injEq] at hhm
            rw [← hhm]
            exact ⟨mb, rfl, rfl⟩

/-- Witness for C10: a chunk of 16 sections is 256 blocks high and gets 9 bits. -/
theorem bitsForHeight_least_witness :
    bitsForHeight 16 = 9 ∧ 16 * 16 < 2 ^ bitsForHeight 16 ∧
    2 ^ (bitsForHeight 16 - 1) ≤ 16 * 16 :=
  ⟨by decide, (bitsForHeight_least 16 (by decide)).1,
   (bitsForHeight_least 16 (by decide)).2.2.1 (by decide)⟩

end level
